import Mathlib

/-!
Verification development for the Puti-AI batch image-repair tool
(`src/putiai/index.tsx`).  The file shallowly embeds the core logic of the
source — the queue item data model, the aspect-ratio matcher inside
`prepareImageForGenAI`, the prompt/request assembly, the error
classification in the `catch` block of `processQueue`, and the sequential
run loop of `processQueue` itself — and proves or refutes the frozen
specification claims about it.

Modelling conventions:
- JavaScript numbers arising as image dimensions are modelled as exact
  rationals; the special values produced by division by zero are modelled
  by an explicit `JSNum` type (`inf`, `ninf`, `nan`) whose comparison
  semantics mirror IEEE comparisons (every `<` involving a non-finite
  ratio is false, which is what the source's `Math.abs` reduce sees).
- The asynchronous run loop is embedded as a deterministic interpreter:
  the external world (the generative API response for each work item, and
  the user events that interleave at the `await` suspension points) is
  supplied as a script, and the interpreter records every observable
  intermediate application state so that "at every instant" claims can be
  stated as quantification over the recorded trace.
-/

namespace Putiai

/-! ## Data model (`QueueItem`, application state) -/

/-- Item lifecycle status, mirroring the `status` union type of `QueueItem`
in the source: `'idle' | 'processing' | 'success' | 'error'`. -/
inductive Status where
  | idle
  | processing
  | success
  | error
deriving DecidableEq, Repr

/-- One work item, mirroring the `QueueItem` interface.  The `file` and
`previewUrl` fields of the source do not influence the queue logic and are
omitted; `resultUrl`, `customPrompt` and `errorMsg` are optional exactly as
in the source. -/
structure Item where
  id : Nat
  status : Status
  resultUrl : Option String
  customPrompt : Option String
  errorMsg : Option String
deriving DecidableEq, Repr

/-- The mutable application state visible to the queue processor: the queue
itself (`queue` state), the single-flight flag (`isProcessing` state) and
the process-wide usable-credential flag (`hasKey` state). -/
structure AppState where
  queue : List Item
  isProcessing : Bool
  hasKey : Bool
deriving DecidableEq, Repr

/-! ## JavaScript string and number helpers -/

/-- Decidable prefix test on lists, helper for the substring test. -/
def listPrefixOf [DecidableEq α] : List α → List α → Bool
  | [], _ => true
  | _ :: _, [] => false
  | a :: as, b :: bs => if a = b then listPrefixOf as bs else false

/-- Decidable infix (contiguous substring) test on lists. -/
def listInfixOf [DecidableEq α] (pat : List α) : List α → Bool
  | [] => listPrefixOf pat []
  | b :: bs => listPrefixOf pat (b :: bs) || listInfixOf pat bs

/-- Model of JavaScript `s.includes(sub)`: `sub` occurs contiguously in
`s`. -/
def includesStr (s sub : String) : Bool :=
  listInfixOf sub.data s.data

/-- Model of the JavaScript expression `s || dflt` on strings: the empty
string is falsy, every other string is truthy. -/
def jsOrElseStr (s : Option String) (dflt : String) : String :=
  match s with
  | none => dflt
  | some v => if v = "" then dflt else v

/-- JavaScript number resulting from the division `width / height`: either
a finite rational or one of the IEEE special values. -/
inductive JSNum where
  | fin (q : ℚ)
  | inf
  | ninf
  | nan
deriving DecidableEq, Repr

/-- Model of the JavaScript division `width / height` on the dimension
values: division by zero yields `NaN` for `0 / 0` and a signed infinity
otherwise. -/
def jsDiv (w h : ℚ) : JSNum :=
  if h = 0 then
    if w = 0 then JSNum.nan else if 0 < w then JSNum.inf else JSNum.ninf
  else JSNum.fin (w / h)

/-! ## Aspect-ratio matcher (`prepareImageForGenAI`, lines 56–76) -/

/-- The fixed list of supported aspect ratios, in declaration order, from
`prepareImageForGenAI`; the values `1.0`, `0.75`, `1.3333`, `0.5625`,
`1.7778` are exactly representable as rationals. -/
def supported : List (String × ℚ) :=
  [("1:1", 1), ("3:4", 3 / 4), ("4:3", 13333 / 10000),
   ("9:16", 9 / 16), ("16:9", 17778 / 10000)]

/-- Model of `Math.abs(curr.val - ratio) < Math.abs(prev.val - ratio)` for
a possibly non-finite `ratio`: any comparison against a `NaN` or infinite
absolute difference is false, exactly as in IEEE semantics (the absolute
difference of a finite value and an infinite or `NaN` ratio is infinite or
`NaN`, and `∞ < ∞` and all `NaN` comparisons are false). -/
def ltAbsDiff (r : JSNum) (c p : ℚ) : Bool :=
  match r with
  | JSNum.fin q => decide (|c - q| < |p - q|)
  | _ => false

/-- The reducer callback of the source:
`(prev, curr) => Math.abs(curr.val - ratio) < Math.abs(prev.val - ratio) ? curr : prev`. -/
def pick (r : JSNum) (prev curr : String × ℚ) : String × ℚ :=
  if ltAbsDiff r curr.2 prev.2 then curr else prev

/-- Model of `Array.prototype.reduce` without an initial accumulator: the
head seeds the fold.  JavaScript throws on an empty array; the source only
ever applies this to the non-empty `supported` list, so the default is
unreachable there. -/
def jsReduce (f : α → α → α) (dflt : α) : List α → α
  | [] => dflt
  | x :: xs => xs.foldl f x

/-- The aspect-ratio matcher of `prepareImageForGenAI`: reduce the
`supported` list keeping the entry whose value is strictly closer to the
ratio, and return its label. -/
def bestAspect (r : JSNum) : String :=
  (jsReduce (pick r) ("1:1", 1) supported).1

/-! ## Error classification (`catch` block of `processQueue`, lines 194–210) -/

/-- The message fragment whose presence the source treats as the fatal
authentication rejection: `"Requested entity was not found"`. -/
def authNotFoundMsg : String := "Requested entity was not found"

/-- The sequence of `errorMsg` assignments of the `catch` block, applied to
a failure message that did not match the fatal authentication pattern:
start from the generic label, overwrite with the safety label if the
message contains `"Safety"`, then overwrite with the rate-limit label if
the message contains `"429"`. -/
def classifyMsg (msg : String) : String :=
  let m1 := "生成失敗"
  let m2 := if includesStr msg "Safety" then "觸發安全限制" else m1
  if includesStr msg "429" then "請求過於頻繁，請稍候" else m2

/-! ## Request assembly (`processQueue`, lines 150–175) -/

/-- The outbound request object handed to `ai.models.generateContent`:
inline image data with media type, the composed prompt text, and the fixed
image configuration. -/
structure GenRequest where
  data : String
  mimeType : String
  text : String
  imageSize : String
  aspect : String
deriving DecidableEq, Repr

/-- Assembly of the outbound request for one item, mirroring lines
150–175 of the source: the specific instruction is
`item.customPrompt || ""`, the final prompt is the template
`` `${globalPrompt} ${specificInstruction}` ``, the media type is
`item.file.type || 'image/png'` (the raw file type is passed in as
`fileType`), the image size is the fixed `'4K'` tier and the aspect label
comes from the matcher. -/
def buildRequest (globalPrompt : String) (item : Item) (base64 : String)
    (fileType : String) (aspect : String) : GenRequest :=
  let specificInstruction := jsOrElseStr item.customPrompt ""
  let finalPrompt := globalPrompt ++ " " ++ specificInstruction
  { data := base64
    mimeType := jsOrElseStr (some fileType) "image/png"
    text := finalPrompt
    imageSize := "4K"
    aspect := aspect }

/-! ## The sequential run loop (`processQueue`, lines 126–219)

The loop is embedded as a deterministic interpreter.  The external world is
supplied as a script: for each work-list position it gives the user events
that interleave while the processor is between items (during the
read-latest-queue await, before the presence re-check) and while the item's
request is in flight, plus the outcome of the request.  The interpreter
also records every observable intermediate application state, so temporal
claims quantify over the recorded trace. -/

/-- A user intent arriving at a suspension point of the run, mirroring the
mutation paths of the presentation layer: `removeItem`, `handleFiles`
(enqueue of a fresh idle item), `updateItemPrompt`, and `cancelProcessing`
(which merely sets the `isProcessing` flag to false). -/
inductive UserEvent where
  | remove (id : Nat)
  | enqueue (id : Nat)
  | setPrompt (id : Nat) (p : String)
  | cancel
deriving DecidableEq, Repr

/-- Outcome of the awaited work for one item: either the API response
resolved with a list of parts (each part optionally carrying inline image
data), or the preparation or the call failed with a message. -/
inductive Outcome where
  | parts (ps : List (Option String))
  | failure (msg : String)
deriving DecidableEq, Repr

/-- Environment script for one work-list position: the user events applied
before the presence re-check, the user events applied while the item's
request is in flight, and the outcome of the request. -/
structure ItemScript where
  preEvents : List UserEvent
  midEvents : List UserEvent
  outcome : Outcome
deriving DecidableEq, Repr

/-- The script with no user interference and an empty (image-less)
response. -/
def emptyScript : ItemScript := ⟨[], [], Outcome.parts []⟩

/-- Application of one user event to the application state, mirroring
`removeItem` (line 117), `handleFiles` (line 87, which appends fresh items
with status `'idle'` and no prompt, result or error), `updateItemPrompt`
(line 121) and `cancelProcessing` (line 216). -/
def applyEvent (st : AppState) : UserEvent → AppState
  | UserEvent.remove id => { st with queue := st.queue.filter (fun i => i.id != id) }
  | UserEvent.enqueue id =>
      { st with queue := st.queue ++ [⟨id, Status.idle, none, none, none⟩] }
  | UserEvent.setPrompt id p =>
      { st with queue :=
          st.queue.map (fun i => if i.id = id then { i with customPrompt := some p } else i) }
  | UserEvent.cancel => { st with isProcessing := false }

/-- Sequential application of a list of user events. -/
def applyEvents (st : AppState) : List UserEvent → AppState
  | [] => st
  | e :: es => applyEvents (applyEvent st e) es

/-- The intermediate states produced by a list of user events (one state
per event, in order). -/
def eventsStates (st : AppState) : List UserEvent → List AppState
  | [] => []
  | e :: es => applyEvent st e :: eventsStates (applyEvent st e) es

/-- The functional `setQueue` update used throughout `processQueue`: map
the queue, rewriting the item with the given id. -/
def setItemStatus (q : List Item) (id : Nat) (f : Item → Item) : List Item :=
  q.map (fun i => if i.id = id then f i else i)

/-- Transition applied on entering processing (line 141): status
`'processing'`, `errorMsg: undefined`; the result field is untouched. -/
def toProcessing (i : Item) : Item :=
  { i with status := Status.processing, errorMsg := none }

/-- Transition applied on success (line 189): status `'success'` and the
result attached; the error field is untouched. -/
def toSuccess (url : String) (i : Item) : Item :=
  { i with status := Status.success, resultUrl := some url }

/-- Transition applied on a recoverable failure (line 209): status
`'error'` with the classified message; the result field is untouched. -/
def toError (msg : String) (i : Item) : Item :=
  { i with status := Status.error, errorMsg := some msg }

/-- The presence re-check of line 138: `currentQueue.find(i => i.id === item.id)`
interpreted as a boolean. -/
def findItem (q : List Item) (id : Nat) : Bool :=
  q.any (fun i => i.id == id)

/-- Extraction of the first inline-data part of the response candidates
(lines 178–186); the extracted data is wrapped into a data URL. -/
def extractImage : List (Option String) → Option String
  | [] => none
  | some d :: _ => some ("data:image/png;base64," ++ d)
  | none :: rest => extractImage rest

/-- The `catch` block of lines 194–210, applied to the failure message:
if the message contains the fatal `"Requested entity was not found"`
fragment, clear the credential flag and the single-flight flag and abort
the run (the item's status is NOT touched — the early `return` skips the
error transition); otherwise mark the item `'error'` with the classified
message and continue.  The returned boolean is the abort flag. -/
def handleFailure (st : AppState) (id : Nat) (msg : String) : AppState × Bool :=
  if includesStr msg authNotFoundMsg then
    ({ st with hasKey := false, isProcessing := false }, true)
  else
    ({ st with queue := setItemStatus st.queue id (toError (classifyMsg msg)) }, false)

/-- Handling of the awaited outcome for one item (lines 177–210): a
response with an extractable image marks the item `'success'`; a response
without one raises `"No image generated."` into the failure path; a
failure goes to the failure path directly. -/
def handleOutcome (st : AppState) (id : Nat) : Outcome → AppState × Bool
  | Outcome.parts ps =>
      match extractImage ps with
      | some url =>
          ({ st with queue := setItemStatus st.queue id (toSuccess url) }, false)
      | none => handleFailure st id "No image generated."
  | Outcome.failure msg => handleFailure st id msg

/-- Trace, final state and abort flag of one iteration of the work-list
loop (lines 133–211): apply the interleaved pre-events, re-check presence
(skip silently when absent), enter processing, apply the in-flight events,
then handle the outcome. -/
structure ItemOut where
  states : List AppState
  final : AppState
  aborted : Bool
deriving DecidableEq, Repr

/-- One iteration of the work-list loop for the snapshot item `item`. -/
def processItem (st : AppState) (item : Item) (sc : ItemScript) : ItemOut :=
  let st1 := applyEvents st sc.preEvents
  if findItem st1.queue item.id then
    let st2 := { st1 with queue := setItemStatus st1.queue item.id toProcessing }
    let st3 := applyEvents st2 sc.midEvents
    let out := handleOutcome st3 item.id sc.outcome
    ⟨eventsStates st sc.preEvents ++ st2 :: (eventsStates st2 sc.midEvents ++ [out.1]),
     out.1, out.2⟩
  else
    ⟨eventsStates st sc.preEvents, st1, false⟩

/-- Trace and final state of a whole run. -/
structure RunResult where
  states : List AppState
  final : AppState
deriving DecidableEq, Repr

/-- The work-list loop of `processQueue`: iterate over the snapshot in
order; an aborted iteration ends the run immediately (the trailing
`setIsProcessing(false)` of line 213 is skipped — the abort path already
cleared the flag); otherwise the flag is cleared after the last item. -/
def runLoop (scripts : Nat → ItemScript) : List Item → Nat → AppState → RunResult
  | [], _, st =>
      ⟨[{ st with isProcessing := false }], { st with isProcessing := false }⟩
  | item :: rest, k, st =>
      let r := processItem st item (scripts k)
      if r.aborted then ⟨r.states, r.final⟩
      else
        let rr := runLoop scripts rest (k + 1) r.final
        ⟨r.states ++ rr.states, rr.final⟩

/-- The run-start snapshot of line 130: the items whose status is `'idle'`
or `'error'`, in queue order. -/
def pending (q : List Item) : List Item :=
  q.filter (fun i => i.status == Status.idle || i.status == Status.error)

/-- The whole `processQueue` entry point (lines 126–214): a no-op when a
run is already active; otherwise set the single-flight flag, snapshot the
work list once, and run the loop.  The recorded trace starts with the
state right after the flag is set. -/
def processQueue (scripts : Nat → ItemScript) (st : AppState) : RunResult :=
  if st.isProcessing then ⟨[st], st⟩
  else
    let st1 := { st with isProcessing := true }
    let r := runLoop scripts (pending st.queue) 0 st1
    ⟨st1 :: r.states, r.final⟩

/-! ## Derived notions used by the claims -/

/-- Number of queue items currently in `Processing` state. -/
def processingCount : List Item → Nat
  | [] => 0
  | i :: is => (if i.status = Status.processing then 1 else 0) + processingCount is

/-- All ids in the queue are distinct (the data-model invariant the source
relies on: ids are random at enqueue time and never reused). -/
def NodupIds (q : List Item) : Prop := (q.map Item.id).Nodup

instance (q : List Item) : Decidable (NodupIds q) := by
  unfold NodupIds
  infer_instance

/-- The per-item data invariant of the specification: the result is
present exactly in `Success` state and the error message exactly in
`Error` state. -/
def wfItem (i : Item) : Prop :=
  (i.resultUrl.isSome = true ↔ i.status = Status.success) ∧
  (i.errorMsg.isSome = true ↔ i.status = Status.error)

instance (i : Item) : Decidable (wfItem i) := by unfold wfItem; infer_instance

/-- No queue item carrying the given id is in `Success` state. -/
def noSuccessFor (x : Nat) (q : List Item) : Prop :=
  ∀ i ∈ q, i.id = x → i.status ≠ Status.success

/-- Every `Processing` item of the queue carries the given id. -/
def procOnly (x : Nat) (q : List Item) : Prop :=
  ∀ i ∈ q, i.status = Status.processing → i.id = x

/-- No queue item carrying the given id has reached a terminal state. -/
def notDoneFor (x : Nat) (q : List Item) : Prop :=
  ∀ i ∈ q, i.id = x → i.status ≠ Status.success ∧ i.status ≠ Status.error

/-- Every queue item whose id is outside the excluded id set is either a
freshly enqueued `Idle` item or still carries the status it had in the
base queue.  Used to express that a run never touches items outside its
work-list snapshot. -/
def untouchedFrom (base : List Item) (excl : List Nat) (q : List Item) : Prop :=
  ∀ i ∈ q, i.id ∉ excl →
    (i.status = Status.idle ∨ ∃ j ∈ base, j.id = i.id ∧ j.status = i.status)

/-- A placeholder item used only as the default of out-of-range list
indexing in theorem statements. -/
def dummyItem : Item := ⟨0, Status.idle, none, none, none⟩

/-- The failure message produced by an outcome, if any: a response without
an extractable image raises `"No image generated."`, a rejection carries
its own message. -/
def failMsgOf : Outcome → Option String
  | Outcome.parts ps =>
      match extractImage ps with
      | some _ => none
      | none => some "No image generated."
  | Outcome.failure msg => some msg

/-- Whether an outcome triggers the fatal authentication abort of the
`catch` block. -/
def outcomeAborts (o : Outcome) : Bool :=
  match failMsgOf o with
  | none => false
  | some m => includesStr m authNotFoundMsg

/-- A freshly enqueued idle item with the given id, as `handleFiles`
creates it. -/
def itemIdle (n : Nat) : Item := ⟨n, Status.idle, none, none, none⟩

/-- Concrete three-item queue used to exercise the auth-abort path. -/
def c1State : AppState := ⟨[itemIdle 1, itemIdle 2, itemIdle 3], false, true⟩

/-- Concrete scripts: item 1 succeeds, item 2 fails with the
authentication-rejection message. -/
def c1Scripts : Nat → ItemScript := fun k =>
  if k = 0 then ⟨[], [], Outcome.parts [some "A"]⟩
  else ⟨[], [], Outcome.failure "Requested entity was not found"⟩

/-- Concrete two-item queue used to exercise cancellation. -/
def c2State : AppState := ⟨[itemIdle 1, itemIdle 2], false, true⟩

/-- Concrete scripts: a cancel request arrives while item 1's request is
in flight; both requests succeed. -/
def c2Scripts : Nat → ItemScript := fun k =>
  if k = 0 then ⟨[], [UserEvent.cancel], Outcome.parts [some "A"]⟩
  else ⟨[], [], Outcome.parts [some "B"]⟩

/-- Concrete two-item queue used for the cross-run single-flight
counterexample. -/
def c4State : AppState := ⟨[itemIdle 1, itemIdle 2], false, true⟩

/-- Scripts whose every outcome is the fatal authentication rejection. -/
def c4ScriptsAuth : Nat → ItemScript :=
  fun _ => ⟨[], [], Outcome.failure "Requested entity was not found"⟩

/-- Scripts whose every outcome succeeds with an image. -/
def c4ScriptsOk : Nat → ItemScript := fun _ => ⟨[], [], Outcome.parts [some "B"]⟩

/-- Concrete one-item queue holding an `Error` item, used to exercise
resubmission. -/
def c5State : AppState := ⟨[⟨1, Status.error, none, none, some "e"⟩], false, true⟩

/-- Concrete one-item queue used to exercise a mid-run enqueue. -/
def c6State : AppState := ⟨[itemIdle 1], false, true⟩

/-- Scripts enqueueing a new item (id 5) while item 1's request is in
flight. -/
def c6Scripts : Nat → ItemScript :=
  fun _ => ⟨[], [UserEvent.enqueue 5], Outcome.parts [some "A"]⟩

/-- The state right after the current item has been moved into processing
(the `setQueue` of line 141), applied to the latest state read after the
interleaved pre-events. -/
def midState (st : AppState) (item : Item) (sc : ItemScript) : AppState :=
  { applyEvents st sc.preEvents with
      queue := setItemStatus (applyEvents st sc.preEvents).queue item.id toProcessing }

/-- The state and abort flag produced by the current item's outcome. -/
def itemOutcome (st : AppState) (item : Item) (sc : ItemScript) : AppState × Bool :=
  handleOutcome (applyEvents (midState st item sc) sc.midEvents) item.id sc.outcome

/-! ## General lemmas: item transitions and queue updates -/

theorem toProcessing_id (i : Item) : (toProcessing i).id = i.id := rfl

theorem toSuccess_id (url : String) (i : Item) : (toSuccess url i).id = i.id := rfl

theorem toError_id (m : String) (i : Item) : (toError m i).id = i.id := rfl

theorem mem_setItemStatus {q : List Item} {x : Nat} {f : Item → Item} {i : Item}
    (hi : i ∈ setItemStatus q x f) :
    ∃ i0 ∈ q, i = (if i0.id = x then f i0 else i0) := by
  rcases List.mem_map.1 hi with ⟨i0, hi0, hEq⟩
  exact ⟨i0, hi0, hEq.symm⟩

theorem setItemStatus_mem {q : List Item} {x : Nat} {f : Item → Item} {i0 : Item}
    (hi0 : i0 ∈ q) : (if i0.id = x then f i0 else i0) ∈ setItemStatus q x f :=
  List.mem_map.2 ⟨i0, hi0, rfl⟩

theorem setItemStatus_map_id {q : List Item} {x : Nat} {f : Item → Item}
    (hf : ∀ i, (f i).id = i.id) :
    (setItemStatus q x f).map Item.id = q.map Item.id := by
  induction q with
  | nil => rfl
  | cons a q ih =>
    simp only [setItemStatus, List.map_cons] at ih ⊢
    rw [ih]
    congr 1
    split
    · exact hf a
    · rfl

theorem mem_setItemStatus_of_ne {q : List Item} {x : Nat} {f : Item → Item} {i : Item}
    (hf : ∀ j, (f j).id = j.id) (hi : i ∈ setItemStatus q x f) (hne : i.id ≠ x) :
    i ∈ q := by
  rcases mem_setItemStatus hi with ⟨i0, hi0, hEq⟩
  by_cases hx : i0.id = x
  · rw [if_pos hx] at hEq
    exact absurd (by rw [hEq, hf, hx]) hne
  · rw [if_neg hx] at hEq
    exact hEq ▸ hi0

theorem status_setItemStatus_self {q : List Item} {x : Nat} {f : Item → Item} {i : Item}
    (hi : i ∈ setItemStatus q x f) (hid : i.id = x) :
    ∃ i0 ∈ q, i0.id = x ∧ i = f i0 := by
  rcases mem_setItemStatus hi with ⟨i0, hi0, hEq⟩
  by_cases hx : i0.id = x
  · rw [if_pos hx] at hEq
    exact ⟨i0, hi0, hx, hEq⟩
  · rw [if_neg hx] at hEq
    exact absurd (hEq ▸ hid) hx

theorem findItem_iff {q : List Item} {x : Nat} :
    findItem q x = true ↔ x ∈ q.map Item.id := by
  unfold findItem
  rw [List.any_eq_true]
  constructor
  · rintro ⟨i, hi, hb⟩
    exact List.mem_map.2 ⟨i, hi, beq_iff_eq.1 hb⟩
  · intro hm
    rcases List.mem_map.1 hm with ⟨i, hi, hix⟩
    exact ⟨i, hi, beq_iff_eq.2 hix⟩

theorem nodupIds_unique {q : List Item} (h : NodupIds q) {i j : Item}
    (hi : i ∈ q) (hj : j ∈ q) (hij : i.id = j.id) : i = j := by
  induction q with
  | nil => cases hi
  | cons a q ih =>
    rw [NodupIds, List.map_cons, List.nodup_cons] at h
    rcases List.mem_cons.1 hi with rfl | hi' <;>
      rcases List.mem_cons.1 hj with rfl | hj'
    · rfl
    · exact absurd (hij ▸ List.mem_map.2 ⟨j, hj', rfl⟩) h.1
    · exact absurd (hij ▸ List.mem_map.2 ⟨i, hi', rfl⟩) h.1
    · exact ih h.2 hi' hj'

/-! ## General lemmas: processing count -/

theorem processingCount_append (a b : List Item) :
    processingCount (a ++ b) = processingCount a + processingCount b := by
  induction a with
  | nil => simp [processingCount]
  | cons i a ih => simp [processingCount, ih]; omega

theorem processingCount_filter_le (p : Item → Bool) (q : List Item) :
    processingCount (q.filter p) ≤ processingCount q := by
  induction q with
  | nil => simp [processingCount]
  | cons i q ih =>
    rw [List.filter_cons]
    split
    · simp only [processingCount]; omega
    · simp only [processingCount]; omega

theorem processingCount_map_of_status {g : Item → Item}
    (hg : ∀ i, (g i).status = i.status) (q : List Item) :
    processingCount (q.map g) = processingCount q := by
  induction q with
  | nil => rfl
  | cons i q ih => simp [processingCount, ih, hg]

theorem processingCount_eq_zero_iff {q : List Item} :
    processingCount q = 0 ↔ ∀ i ∈ q, i.status ≠ Status.processing := by
  induction q with
  | nil => simp [processingCount]
  | cons i q ih =>
    simp only [processingCount, List.mem_cons, Nat.add_eq_zero]
    constructor
    · rintro ⟨h1, h2⟩ j (rfl | hj)
      · intro hs; rw [if_pos hs] at h1; exact absurd h1 one_ne_zero
      · exact ih.1 h2 j hj
    · intro h
      refine ⟨?_, ih.2 fun j hj => h j (Or.inr hj)⟩
      rw [if_neg (h i (Or.inl rfl))]

theorem setItemStatus_eq_of_not_mem {x : Nat} {f : Item → Item} :
    ∀ {q : List Item}, x ∉ q.map Item.id → setItemStatus q x f = q
  | [], _ => rfl
  | a :: q, h => by
    rw [List.map_cons, List.mem_cons] at h
    push_neg at h
    unfold setItemStatus
    rw [List.map_cons, if_neg (Ne.symm h.1)]
    have hq := setItemStatus_eq_of_not_mem (f := f) (q := q) h.2
    unfold setItemStatus at hq
    rw [hq]


theorem processingCount_setItemStatus_le {q : List Item} {x : Nat} {f : Item → Item}
    (hf : ∀ i, (f i).status ≠ Status.processing) :
    processingCount (setItemStatus q x f) ≤ processingCount q := by
  induction q with
  | nil => exact Nat.le_refl 0
  | cons a q ih =>
    unfold setItemStatus at ih ⊢
    rw [List.map_cons]
    simp only [processingCount]
    have hhead : (if (if a.id = x then f a else a).status = Status.processing then 1 else 0)
        ≤ (if a.status = Status.processing then 1 else 0) := by
      by_cases hax : a.id = x
      · rw [if_pos hax, if_neg (hf a)]
        exact Nat.zero_le _
      · rw [if_neg hax]
    omega

theorem processingCount_setItemStatus_toProcessing {q : List Item} {x : Nat}
    (hN : NodupIds q) :
    processingCount (setItemStatus q x toProcessing) ≤ processingCount q + 1 := by
  induction q with
  | nil => exact Nat.zero_le 1
  | cons a q ih =>
    rw [NodupIds, List.map_cons, List.nodup_cons] at hN
    unfold setItemStatus at ih ⊢
    rw [List.map_cons]
    simp only [processingCount]
    by_cases hax : a.id = x
    · rw [if_pos hax]
      have hrest : List.map (fun i => if i.id = x then toProcessing i else i) q = q := by
        have := setItemStatus_eq_of_not_mem (f := toProcessing) (q := q) (hax ▸ hN.1)
        unfold setItemStatus at this
        exact this
      rw [hrest]
      have : (if (toProcessing a).status = Status.processing then 1 else 0) = 1 := if_pos rfl
      omega
    · rw [if_neg hax]
      have := ih hN.2
      omega

/-! ## General lemmas: user events and traces -/

theorem mem_applyEvent {st : AppState} {e : UserEvent} {i : Item}
    (hi : i ∈ (applyEvent st e).queue) :
    (∃ i0 ∈ st.queue, i0.id = i.id ∧ i0.status = i.status ∧
       i0.resultUrl = i.resultUrl ∧ i0.errorMsg = i.errorMsg) ∨
    (i.status = Status.idle ∧ i.resultUrl = none ∧ i.errorMsg = none) := by
  cases e with
  | remove id =>
    exact Or.inl ⟨i, (List.mem_filter.1 hi).1, rfl, rfl, rfl, rfl⟩
  | enqueue id =>
    rcases List.mem_append.1 hi with h | h
    · exact Or.inl ⟨i, h, rfl, rfl, rfl, rfl⟩
    · rcases List.mem_singleton.1 h with rfl
      exact Or.inr ⟨rfl, rfl, rfl⟩
  | setPrompt id p =>
    rcases List.mem_map.1 hi with ⟨i0, hi0, hEq⟩
    refine Or.inl ⟨i0, hi0, ?_⟩
    by_cases hx : i0.id = id
    · rw [if_pos hx] at hEq
      rw [← hEq]
      exact ⟨rfl, rfl, rfl, rfl⟩
    · rw [if_neg hx] at hEq
      rw [← hEq]
      exact ⟨rfl, rfl, rfl, rfl⟩
  | cancel =>
    exact Or.inl ⟨i, hi, rfl, rfl, rfl, rfl⟩

theorem processingCount_applyEvent_le (st : AppState) (e : UserEvent) :
    processingCount (applyEvent st e).queue ≤ processingCount st.queue := by
  cases e with
  | remove id => exact processingCount_filter_le _ _
  | enqueue id =>
    show processingCount (st.queue ++ [_]) ≤ _
    rw [processingCount_append]
    simp [processingCount, dummyItem]
  | setPrompt id p =>
    show processingCount (st.queue.map _) ≤ _
    rw [processingCount_map_of_status]
    intro i
    by_cases hx : i.id = id
    · rw [if_pos hx]
    · rw [if_neg hx]
  | cancel => exact Nat.le_refl _

theorem applyEvent_hasKey (st : AppState) (e : UserEvent) :
    (applyEvent st e).hasKey = st.hasKey := by
  cases e <;> rfl

theorem applyEvents_mem_cons (st : AppState) (es : List UserEvent) :
    applyEvents st es ∈ st :: eventsStates st es := by
  induction es generalizing st with
  | nil => exact List.mem_cons_self _ _
  | cons e es ih =>
    have h := ih (applyEvent st e)
    unfold applyEvents eventsStates
    rcases List.mem_cons.1 h with h' | h'
    · rw [h']
      exact List.mem_cons_of_mem _ (List.mem_cons_self _ _)
    · exact List.mem_cons_of_mem _ (List.mem_cons_of_mem _ h')

theorem eventsStates_pres (P : AppState → Prop)
    (hP : ∀ st e, P st → P (applyEvent st e)) :
    ∀ (es : List UserEvent) (st : AppState), P st →
      (∀ s ∈ eventsStates st es, P s) ∧ P (applyEvents st es) := by
  intro es
  induction es with
  | nil => exact fun st h => ⟨fun s hs => absurd hs (List.not_mem_nil s), h⟩
  | cons e es ih =>
    intro st h
    have h1 : P (applyEvent st e) := hP st e h
    have h2 := ih (applyEvent st e) h1
    refine ⟨?_, h2.2⟩
    intro s hs
    rcases List.mem_cons.1 hs with rfl | hs'
    · exact h1
    · exact h2.1 s hs'

/-! ## General lemmas: the run loop -/

theorem processItem_not_found {st : AppState} {item : Item} {sc : ItemScript}
    (h : findItem (applyEvents st sc.preEvents).queue item.id = false) :
    processItem st item sc =
      ⟨eventsStates st sc.preEvents, applyEvents st sc.preEvents, false⟩ := by
  simp only [processItem, h]
  rfl

theorem processItem_found {st : AppState} {item : Item} {sc : ItemScript}
    (h : findItem (applyEvents st sc.preEvents).queue item.id = true) :
    processItem st item sc =
      ⟨eventsStates st sc.preEvents ++ midState st item sc ::
         (eventsStates (midState st item sc) sc.midEvents ++ [(itemOutcome st item sc).1]),
       (itemOutcome st item sc).1, (itemOutcome st item sc).2⟩ := by
  simp only [processItem, midState, itemOutcome, h]
  rfl

theorem applyEvents_mem_processItem (st : AppState) (item : Item) (sc : ItemScript) :
    applyEvents st sc.preEvents ∈ st :: (processItem st item sc).states := by
  have hmem := applyEvents_mem_cons st sc.preEvents
  by_cases h : findItem (applyEvents st sc.preEvents).queue item.id
  · rw [processItem_found h]
    rcases List.mem_cons.1 hmem with h' | h'
    · rw [h']
      exact List.mem_cons_self _ _
    · exact List.mem_cons_of_mem _ (List.mem_append.2 (Or.inl h'))
  · rw [processItem_not_found (Bool.of_not_eq_true h)]
    exact hmem

theorem final_mem_processItem (st : AppState) (item : Item) (sc : ItemScript) :
    (processItem st item sc).final ∈ st :: (processItem st item sc).states := by
  by_cases h : findItem (applyEvents st sc.preEvents).queue item.id
  · rw [processItem_found h]
    exact List.mem_cons_of_mem _ (List.mem_append.2 (Or.inr
      (List.mem_cons_of_mem _ (List.mem_append.2 (Or.inr (List.mem_singleton.2 rfl))))))
  · rw [processItem_not_found (Bool.of_not_eq_true h)]
    exact applyEvents_mem_cons st sc.preEvents

theorem procOnly_applyEvent {x : Nat} {st : AppState} {e : UserEvent}
    (h : procOnly x st.queue) : procOnly x (applyEvent st e).queue := by
  intro i hi hs
  rcases mem_applyEvent hi with ⟨i0, hi0, hid, hst, _, _⟩ | ⟨hidle, _, _⟩
  · rw [← hid]
    exact h i0 hi0 (hst.trans hs)
  · rw [hidle] at hs
    cases hs

theorem procOnly_setProcessing {q : List Item} {x : Nat}
    (h0 : processingCount q = 0) : procOnly x (setItemStatus q x toProcessing) := by
  intro i hi hs
  rcases mem_setItemStatus hi with ⟨i0, hi0, hEq⟩
  by_cases hx : i0.id = x
  · rw [if_pos hx] at hEq
    rw [hEq]
    exact hx
  · rw [if_neg hx] at hEq
    rw [hEq] at hs
    exact absurd hs (processingCount_eq_zero_iff.1 h0 i0 hi0)

theorem processingCount_eq_zero_mapped {q : List Item} {x : Nat} {f : Item → Item}
    (hp : procOnly x q) (hf : ∀ i, (f i).status ≠ Status.processing) :
    processingCount (setItemStatus q x f) = 0 := by
  rw [processingCount_eq_zero_iff]
  intro i hi hs
  rcases mem_setItemStatus hi with ⟨i0, hi0, hEq⟩
  by_cases hx : i0.id = x
  · rw [if_pos hx] at hEq
    rw [hEq] at hs
    exact hf i0 hs
  · rw [if_neg hx] at hEq
    exact hx (hp i0 hi0 (hEq ▸ hs))

theorem toSuccess_status (url : String) (i : Item) :
    (toSuccess url i).status = Status.success := rfl

theorem toError_status (m : String) (i : Item) :
    (toError m i).status = Status.error := rfl

theorem wfItem_toSuccess {i : Item} (url : String) (hwf : wfItem i)
    (hne : i.status ≠ Status.error) : wfItem (toSuccess url i) := by
  refine ⟨by simp [toSuccess], ?_⟩
  have h1 : (toSuccess url i).errorMsg = i.errorMsg := rfl
  have h2 : (toSuccess url i).status = Status.success := rfl
  rw [h1, h2]
  constructor
  · intro hsome
    exact absurd (hwf.2.1 hsome) hne
  · intro hc
    cases hc

theorem wfItem_toError {i : Item} (m : String) (hwf : wfItem i)
    (hns : i.status ≠ Status.success) : wfItem (toError m i) := by
  refine ⟨?_, by simp [toError]⟩
  have h1 : (toError m i).resultUrl = i.resultUrl := rfl
  have h2 : (toError m i).status = Status.error := rfl
  rw [h1, h2]
  constructor
  · intro hsome
    exact absurd (hwf.1.1 hsome) hns
  · intro hc
    cases hc

theorem wfItem_toProcessing {i : Item} (hwf : wfItem i)
    (hns : i.status ≠ Status.success) : wfItem (toProcessing i) := by
  refine ⟨?_, by simp [toProcessing]⟩
  have h1 : (toProcessing i).resultUrl = i.resultUrl := rfl
  have h2 : (toProcessing i).status = Status.processing := rfl
  rw [h1, h2]
  constructor
  · intro hsome
    exact absurd (hwf.1.1 hsome) hns
  · intro hc
    cases hc

/-- Case analysis of the `handleFailure` branch of the `catch` block:
either the message matches the fatal authentication pattern, the run is
aborted and only the two flags change, or the item is marked `Error` with
the classified message. -/
theorem handleFailure_split (st : AppState) (x : Nat) (m : String) :
    (includesStr m authNotFoundMsg = true ∧
       handleFailure st x m = ({ st with hasKey := false, isProcessing := false }, true)) ∨
    (includesStr m authNotFoundMsg = false ∧
       handleFailure st x m =
         ({ st with queue := setItemStatus st.queue x (toError (classifyMsg m)) }, false)) := by
  by_cases h : includesStr m authNotFoundMsg
  · left
    exact ⟨h, by simp [handleFailure, h]⟩
  · right
    exact ⟨Bool.of_not_eq_true h, by simp [handleFailure, h]⟩

/-- Case analysis of the whole outcome handling: an aborting outcome only
clears the two flags; a non-aborting outcome rewrites the current item by
an id-preserving transition into a non-`Processing` state that keeps the
well-formedness of the item. -/
theorem handleOutcome_split (st : AppState) (x : Nat) (o : Outcome) :
    (outcomeAborts o = true ∧
       (handleOutcome st x o).1 = { st with hasKey := false, isProcessing := false } ∧
       (handleOutcome st x o).2 = true) ∨
    (outcomeAborts o = false ∧ ∃ f : Item → Item,
       (∀ i, (f i).id = i.id) ∧ (∀ i, (f i).status ≠ Status.processing) ∧
       (∀ i, wfItem i → i.status ≠ Status.success → i.status ≠ Status.error → wfItem (f i)) ∧
       (handleOutcome st x o).1 = { st with queue := setItemStatus st.queue x f } ∧
       (handleOutcome st x o).2 = false) := by
  have habort : ∀ m : String,
      outcomeAborts (Outcome.failure m) = includesStr m authNotFoundMsg := fun m => rfl
  cases o with
  | parts ps =>
    cases hex : extractImage ps with
    | some url =>
      right
      exact ⟨by simp [outcomeAborts, failMsgOf, hex], toSuccess url, fun i => rfl,
        fun i => by simp [toSuccess], fun i hwf _ hne => wfItem_toSuccess url hwf hne,
        by simp [handleOutcome, hex], by simp [handleOutcome, hex]⟩
    | none =>
      have ho : handleOutcome st x (Outcome.parts ps) =
          handleFailure st x "No image generated." := by
        simp [handleOutcome, hex]
      have ha : outcomeAborts (Outcome.parts ps) =
          includesStr "No image generated." authNotFoundMsg := by
        simp [outcomeAborts, failMsgOf, hex]
      rw [ho, ha]
      rcases handleFailure_split st x "No image generated." with ⟨h1, h2⟩ | ⟨h1, h2⟩
      · exact Or.inl ⟨h1, by rw [h2], by rw [h2]⟩
      · exact Or.inr ⟨h1, toError (classifyMsg "No image generated."), fun i => rfl,
          fun i => by simp [toError],
          fun i hwf hns _ => wfItem_toError _ hwf hns, by rw [h2], by rw [h2]⟩
  | failure m =>
    rw [habort m]
    have ho2 : handleOutcome st x (Outcome.failure m) = handleFailure st x m := rfl
    rw [ho2]
    rcases handleFailure_split st x m with ⟨h1, h2⟩ | ⟨h1, h2⟩
    · exact Or.inl ⟨h1, by rw [h2], by rw [h2]⟩
    · exact Or.inr ⟨h1, toError (classifyMsg m), fun i => rfl,
        fun i => by simp [toError],
        fun i hwf hns _ => wfItem_toError _ hwf hns, by rw [h2], by rw [h2]⟩

theorem runLoop_cons (scripts : Nat → ItemScript) (item : Item) (rest : List Item)
    (k : Nat) (st : AppState) :
    runLoop scripts (item :: rest) k st =
      if (processItem st item (scripts k)).aborted then
        ⟨(processItem st item (scripts k)).states, (processItem st item (scripts k)).final⟩
      else
        ⟨(processItem st item (scripts k)).states ++
           (runLoop scripts rest (k + 1) (processItem st item (scripts k)).final).states,
         (runLoop scripts rest (k + 1) (processItem st item (scripts k)).final).final⟩ := rfl

theorem runLoop_cons_abort {scripts : Nat → ItemScript} {item : Item} {rest : List Item}
    {k : Nat} {st : AppState}
    (h : (processItem st item (scripts k)).aborted = true) :
    runLoop scripts (item :: rest) k st =
      ⟨(processItem st item (scripts k)).states, (processItem st item (scripts k)).final⟩ := by
  rw [runLoop_cons, if_pos h]

theorem runLoop_cons_cont {scripts : Nat → ItemScript} {item : Item} {rest : List Item}
    {k : Nat} {st : AppState}
    (h : (processItem st item (scripts k)).aborted = false) :
    runLoop scripts (item :: rest) k st =
      ⟨(processItem st item (scripts k)).states ++
         (runLoop scripts rest (k + 1) (processItem st item (scripts k)).final).states,
       (runLoop scripts rest (k + 1) (processItem st item (scripts k)).final).final⟩ := by
  rw [runLoop_cons, if_neg]
  rw [h]
  exact fun hc => by cases hc

theorem processItem_count {st : AppState} {item : Item} {sc : ItemScript}
    (h0 : processingCount st.queue = 0)
    (hN : NodupIds (applyEvents st sc.preEvents).queue) :
    (∀ s ∈ (processItem st item sc).states, processingCount s.queue ≤ 1) ∧
    processingCount (processItem st item sc).final.queue ≤ 1 ∧
    ((processItem st item sc).aborted = false →
      processingCount (processItem st item sc).final.queue = 0) := by
  have hev := eventsStates_pres (fun s => processingCount s.queue = 0)
    (fun st' e h =>
      Nat.le_zero.1 ((processingCount_applyEvent_le st' e).trans (Nat.le_of_eq h)))
  by_cases hf : findItem (applyEvents st sc.preEvents).queue item.id
  · rw [processItem_found hf]
    have hpre := hev sc.preEvents st h0
    have h1 : processingCount (applyEvents st sc.preEvents).queue = 0 := hpre.2
    have h2 : processingCount (midState st item sc).queue ≤ 1 := by
      show processingCount
        (setItemStatus (applyEvents st sc.preEvents).queue item.id toProcessing) ≤ 1
      have := processingCount_setItemStatus_toProcessing (x := item.id) hN
      omega
    have hpo : procOnly item.id (midState st item sc).queue :=
      procOnly_setProcessing h1
    have hmono := eventsStates_pres
      (fun s => processingCount s.queue ≤ 1 ∧ procOnly item.id s.queue)
      (fun st' e h => ⟨(processingCount_applyEvent_le st' e).trans h.1,
        procOnly_applyEvent h.2⟩)
    have hmid := hmono sc.midEvents (midState st item sc) ⟨h2, hpo⟩
    have h3 : processingCount (applyEvents (midState st item sc) sc.midEvents).queue ≤ 1 :=
      hmid.2.1
    have hpo3 : procOnly item.id (applyEvents (midState st item sc) sc.midEvents).queue :=
      hmid.2.2
    have houtcome :
        processingCount (itemOutcome st item sc).1.queue ≤ 1 ∧
        ((itemOutcome st item sc).2 = false →
          processingCount (itemOutcome st item sc).1.queue = 0) := by
      rcases handleOutcome_split (applyEvents (midState st item sc) sc.midEvents)
          item.id sc.outcome with ⟨ha, heq1, heq2⟩ | ⟨ha, f, hfid, hfst, hfwf, heq1, heq2⟩
      · have hh1 : (itemOutcome st item sc).1 =
            { applyEvents (midState st item sc) sc.midEvents with
                hasKey := false, isProcessing := false } := heq1
        have hh2 : (itemOutcome st item sc).2 = true := heq2
        rw [hh1, hh2]
        exact ⟨h3, fun hcon => by cases hcon⟩
      · have hh1 : (itemOutcome st item sc).1 =
            { applyEvents (midState st item sc) sc.midEvents with
                queue := setItemStatus
                  (applyEvents (midState st item sc) sc.midEvents).queue item.id f } := heq1
        have hh2 : (itemOutcome st item sc).2 = false := heq2
        rw [hh1, hh2]
        have hz := processingCount_eq_zero_mapped hpo3 hfst
        constructor
        · show processingCount (setItemStatus
            (applyEvents (midState st item sc) sc.midEvents).queue item.id f) ≤ 1
          omega
        · intro _
          exact hz
    refine ⟨?_, houtcome.1, fun _ => houtcome.2 ?_⟩
    · intro s hs
      rcases List.mem_append.1 hs with hsp | hsm
      · have := hpre.1 s hsp
        omega
      · rcases List.mem_cons.1 hsm with rfl | hsm'
        · exact h2
        · rcases List.mem_append.1 hsm' with hmm | hfin
          · exact (hmid.1 s hmm).1
          · rcases List.mem_singleton.1 hfin with rfl
            exact houtcome.1
    · assumption
  · rw [processItem_not_found (Bool.of_not_eq_true hf)]
    have hpre := hev sc.preEvents st h0
    refine ⟨?_, ?_, ?_⟩
    · intro s hs
      have := hpre.1 s hs
      omega
    · show processingCount (applyEvents st sc.preEvents).queue ≤ 1
      omega
    · intro _
      exact hpre.2

theorem runLoop_count (scripts : Nat → ItemScript) :
    ∀ (ws : List Item) (k : Nat) (st : AppState),
      processingCount st.queue = 0 →
      (∀ s ∈ st :: (runLoop scripts ws k st).states, NodupIds s.queue) →
      ∀ s ∈ (runLoop scripts ws k st).states, processingCount s.queue ≤ 1 := by
  intro ws
  induction ws with
  | nil =>
    intro k st h0 _ s hs
    rcases List.mem_singleton.1 hs with rfl
    show processingCount st.queue ≤ 1
    omega
  | cons item rest ih =>
    intro k st h0 hN
    have hsub : ∀ s ∈ st :: (processItem st item (scripts k)).states, NodupIds s.queue := by
      intro s hs
      rcases List.mem_cons.1 hs with rfl | hs'
      · exact hN s (List.mem_cons_self _ _)
      · refine hN s (List.mem_cons_of_mem _ ?_)
        rw [runLoop_cons]
        by_cases hab : (processItem st item (scripts k)).aborted
        · rw [if_pos hab]
          exact hs'
        · rw [if_neg hab]
          exact List.mem_append.2 (Or.inl hs')
    have hN1 : NodupIds (applyEvents st (scripts k).preEvents).queue :=
      hsub _ (applyEvents_mem_processItem st item (scripts k))
    have pc := @processItem_count st item (scripts k) h0 hN1
    rw [runLoop_cons]
    by_cases hab : (processItem st item (scripts k)).aborted
    · rw [if_pos hab]
      exact pc.1
    · rw [if_neg hab]
      intro s hs
      rcases List.mem_append.1 hs with hs' | hs'
      · exact pc.1 s hs'
      · have hfin0 : processingCount (processItem st item (scripts k)).final.queue = 0 :=
          pc.2.2 (Bool.of_not_eq_true hab)
        have hNfin : ∀ s' ∈ (processItem st item (scripts k)).final ::
            (runLoop scripts rest (k + 1) (processItem st item (scripts k)).final).states,
            NodupIds s'.queue := by
          intro s' hs''
          rcases List.mem_cons.1 hs'' with rfl | hs''
          · rcases List.mem_cons.1 (final_mem_processItem st item (scripts k)) with hfe | hfe
            · rw [hfe]
              exact hN st (List.mem_cons_self _ _)
            · exact hsub _ (List.mem_cons_of_mem _ hfe)
          · refine hN s' (List.mem_cons_of_mem _ ?_)
            rw [runLoop_cons, if_neg hab]
            exact List.mem_append.2 (Or.inr hs'')
        exact ih (k + 1) (processItem st item (scripts k)).final hfin0 hNfin s hs'

/-! ## General lemmas: preservation of the per-item data invariant -/

theorem wf_applyEvent {st : AppState} {e : UserEvent}
    (h : ∀ i ∈ st.queue, wfItem i) : ∀ i ∈ (applyEvent st e).queue, wfItem i := by
  intro i hi
  rcases mem_applyEvent hi with ⟨i0, hi0, _, hst, hres, herr⟩ | ⟨hidle, hres, herr⟩
  · have h0 := h i0 hi0
    unfold wfItem at h0 ⊢
    rw [← hst, ← hres, ← herr]
    exact h0
  · unfold wfItem
    rw [hidle, hres, herr]
    simp

theorem noSuccessFor_applyEvent {x : Nat} {st : AppState} {e : UserEvent}
    (h : noSuccessFor x st.queue) : noSuccessFor x (applyEvent st e).queue := by
  intro i hi hid
  rcases mem_applyEvent hi with ⟨i0, hi0, hid0, hst, _, _⟩ | ⟨hidle, _, _⟩
  · rw [← hst]
    exact h i0 hi0 (hid0.trans hid)
  · rw [hidle]
    simp

theorem notDoneFor_applyEvent {x : Nat} {st : AppState} {e : UserEvent}
    (h : notDoneFor x st.queue) : notDoneFor x (applyEvent st e).queue := by
  intro i hi hid
  rcases mem_applyEvent hi with ⟨i0, hi0, hid0, hst, _, _⟩ | ⟨hidle, _, _⟩
  · rw [← hst]
    exact h i0 hi0 (hid0.trans hid)
  · rw [hidle]
    simp

theorem notDoneFor_setProcessing {q : List Item} {x : Nat} :
    notDoneFor x (setItemStatus q x toProcessing) := by
  intro i hi hid
  rcases mem_setItemStatus hi with ⟨i0, hi0, hEq⟩
  by_cases hx : i0.id = x
  · rw [if_pos hx] at hEq
    rw [hEq]
    simp [toProcessing]
  · rw [if_neg hx] at hEq
    exact absurd (hEq ▸ hid) hx

theorem wf_setProcessing {q : List Item} {x : Nat}
    (hwf : ∀ i ∈ q, wfItem i) (hns : noSuccessFor x q) :
    ∀ i ∈ setItemStatus q x toProcessing, wfItem i := by
  intro i hi
  rcases mem_setItemStatus hi with ⟨i0, hi0, hEq⟩
  by_cases hx : i0.id = x
  · rw [if_pos hx] at hEq
    rw [hEq]
    exact wfItem_toProcessing (hwf i0 hi0) (hns i0 hi0 hx)
  · rw [if_neg hx] at hEq
    rw [hEq]
    exact hwf i0 hi0

theorem wf_setItemStatus_outcome {q : List Item} {x : Nat} {f : Item → Item}
    (hwf : ∀ i ∈ q, wfItem i) (hnd : notDoneFor x q)
    (hfwf : ∀ i, wfItem i → i.status ≠ Status.success → i.status ≠ Status.error →
      wfItem (f i)) :
    ∀ i ∈ setItemStatus q x f, wfItem i := by
  intro i hi
  rcases mem_setItemStatus hi with ⟨i0, hi0, hEq⟩
  by_cases hx : i0.id = x
  · rw [if_pos hx] at hEq
    rw [hEq]
    exact hfwf i0 (hwf i0 hi0) (hnd i0 hi0 hx).1 (hnd i0 hi0 hx).2
  · rw [if_neg hx] at hEq
    rw [hEq]
    exact hwf i0 hi0

theorem noSuccessFor_setItemStatus {q : List Item} {x y : Nat} {f : Item → Item}
    (hfid : ∀ i, (f i).id = i.id) (hxy : y ≠ x)
    (h : noSuccessFor y q) : noSuccessFor y (setItemStatus q x f) := by
  intro i hi hid
  rcases mem_setItemStatus hi with ⟨i0, hi0, hEq⟩
  by_cases hx : i0.id = x
  · have hix : i.id = x := by rw [hEq, if_pos hx, hfid i0, hx]
    exact absurd (hid.symm.trans hix) hxy
  · rw [if_neg hx] at hEq
    rw [hEq]
    exact h i0 hi0 (by rw [← hEq]; exact hid)

theorem processItem_wf {st : AppState} {item : Item} {sc : ItemScript}
    (hwf : ∀ i ∈ st.queue, wfItem i)
    (hns : noSuccessFor item.id st.queue) :
    (∀ s ∈ (processItem st item sc).states, ∀ i ∈ s.queue, wfItem i) ∧
    (∀ i ∈ (processItem st item sc).final.queue, wfItem i) ∧
    (∀ y, y ≠ item.id → noSuccessFor y st.queue →
      noSuccessFor y (processItem st item sc).final.queue) := by
  have hevWf := eventsStates_pres (fun s => ∀ i ∈ s.queue, wfItem i)
    (fun st' e h => wf_applyEvent h)
  have hevNs := fun (y : Nat) => eventsStates_pres (fun s => noSuccessFor y s.queue)
    (fun st' e h => noSuccessFor_applyEvent h)
  have hevNd := eventsStates_pres (fun s => notDoneFor item.id s.queue)
    (fun st' e h => notDoneFor_applyEvent h)
  by_cases hf : findItem (applyEvents st sc.preEvents).queue item.id
  · rw [processItem_found hf]
    have hpreWf := hevWf sc.preEvents st hwf
    have hpreNsAny := fun y hy => (hevNs y sc.preEvents st hy).2
    have hwf1 : ∀ i ∈ (applyEvents st sc.preEvents).queue, wfItem i := hpreWf.2
    have hns1 : noSuccessFor item.id (applyEvents st sc.preEvents).queue :=
      hpreNsAny item.id hns
    have hwf2 : ∀ i ∈ (midState st item sc).queue, wfItem i :=
      wf_setProcessing hwf1 hns1
    have hnd2 : notDoneFor item.id (midState st item sc).queue :=
      notDoneFor_setProcessing
    have hmidWf := hevWf sc.midEvents (midState st item sc) hwf2
    have hmidNd := hevNd sc.midEvents (midState st item sc) hnd2
    have hwf3 : ∀ i ∈ (applyEvents (midState st item sc) sc.midEvents).queue, wfItem i :=
      hmidWf.2
    have hnd3 : notDoneFor item.id (applyEvents (midState st item sc) sc.midEvents).queue :=
      hmidNd.2
    have hout :
        (∀ i ∈ (itemOutcome st item sc).1.queue, wfItem i) ∧
        (∀ y, y ≠ item.id →
          noSuccessFor y (applyEvents (midState st item sc) sc.midEvents).queue →
          noSuccessFor y (itemOutcome st item sc).1.queue) := by
      rcases handleOutcome_split (applyEvents (midState st item sc) sc.midEvents)
          item.id sc.outcome with ⟨ha, heq1, heq2⟩ | ⟨ha, f, hfid, hfst, hfwf, heq1, heq2⟩
      · have hh1 : (itemOutcome st item sc).1 =
            { applyEvents (midState st item sc) sc.midEvents with
                hasKey := false, isProcessing := false } := heq1
        rw [hh1]
        exact ⟨hwf3, fun y _ hy => hy⟩
      · have hh1 : (itemOutcome st item sc).1 =
            { applyEvents (midState st item sc) sc.midEvents with
                queue := setItemStatus
                  (applyEvents (midState st item sc) sc.midEvents).queue item.id f } := heq1
        rw [hh1]
        exact ⟨wf_setItemStatus_outcome hwf3 hnd3 hfwf,
          fun y hy hns' => noSuccessFor_setItemStatus hfid hy hns'⟩
    refine ⟨?_, hout.1, ?_⟩
    · intro s hs
      rcases List.mem_append.1 hs with hsp | hsm
      · exact hpreWf.1 s hsp
      · rcases List.mem_cons.1 hsm with rfl | hsm'
        · exact hwf2
        · rcases List.mem_append.1 hsm' with hmm | hfin
          · exact hmidWf.1 s hmm
          · rcases List.mem_singleton.1 hfin with rfl
            exact hout.1
    · intro y hy hnsy
      have hnsy1 := hpreNsAny y hnsy
      have hnsy2 : noSuccessFor y (midState st item sc).queue :=
        noSuccessFor_setItemStatus (fun i => rfl) hy hnsy1
      have hnsy3 := (hevNs y sc.midEvents (midState st item sc) hnsy2).2
      exact hout.2 y hy hnsy3
  · rw [processItem_not_found (Bool.of_not_eq_true hf)]
    have hpreWf := hevWf sc.preEvents st hwf
    exact ⟨fun s hs => hpreWf.1 s hs, hpreWf.2,
      fun y _ hy => (hevNs y sc.preEvents st hy).2⟩

theorem runLoop_wf (scripts : Nat → ItemScript) :
    ∀ (ws : List Item) (k : Nat) (st : AppState),
      (∀ i ∈ st.queue, wfItem i) →
      (∀ it ∈ ws, noSuccessFor it.id st.queue) →
      (ws.map Item.id).Nodup →
      ∀ s ∈ (runLoop scripts ws k st).states, ∀ i ∈ s.queue, wfItem i := by
  intro ws
  induction ws with
  | nil =>
    intro k st hwf _ _ s hs
    rcases List.mem_singleton.1 hs with rfl
    exact hwf
  | cons item rest ih =>
    intro k st hwf hns hnodup
    have pw := @processItem_wf st item (scripts k) hwf (hns item (List.mem_cons_self _ _))
    rw [runLoop_cons]
    by_cases hab : (processItem st item (scripts k)).aborted
    · rw [if_pos hab]
      exact pw.1
    · rw [if_neg hab]
      intro s hs
      rcases List.mem_append.1 hs with hs' | hs'
      · exact pw.1 s hs'
      · rw [List.map_cons, List.nodup_cons] at hnodup
        refine ih (k + 1) (processItem st item (scripts k)).final pw.2.1 ?_ hnodup.2 s hs'
        intro it hit
        have hneq : it.id ≠ item.id := by
          intro hc
          exact hnodup.1 (hc ▸ List.mem_map.2 ⟨it, hit, rfl⟩)
        exact pw.2.2 it.id hneq (hns it (List.mem_cons_of_mem _ hit))

/-! ## General lemmas: items outside the work list are never touched -/

theorem untouchedFrom_applyEvent {base : List Item} {excl : List Nat}
    {st : AppState} {e : UserEvent} (h : untouchedFrom base excl st.queue) :
    untouchedFrom base excl (applyEvent st e).queue := by
  intro i hi hex
  rcases mem_applyEvent hi with ⟨i0, hi0, hid0, hst, _, _⟩ | ⟨hidle, _, _⟩
  · rcases h i0 hi0 (fun hc => hex (hid0 ▸ hc)) with hidl | ⟨j, hj, hjid, hjst⟩
    · left
      rw [← hst]
      exact hidl
    · right
      exact ⟨j, hj, hjid.trans hid0, hjst.trans hst⟩
  · left
    exact hidle

theorem untouchedFrom_setItemStatus {base : List Item} {excl : List Nat}
    {q : List Item} {x : Nat} {f : Item → Item}
    (hfid : ∀ j, (f j).id = j.id) (hx : x ∈ excl)
    (h : untouchedFrom base excl q) :
    untouchedFrom base excl (setItemStatus q x f) := by
  intro i hi hex
  have hne : i.id ≠ x := fun hc => hex (hc ▸ hx)
  exact h i (mem_setItemStatus_of_ne hfid hi hne) hex

theorem processItem_untouched {st : AppState} {item : Item} {sc : ItemScript}
    {base : List Item} {excl : List Nat}
    (hx : item.id ∈ excl) (h : untouchedFrom base excl st.queue) :
    (∀ s ∈ (processItem st item sc).states, untouchedFrom base excl s.queue) ∧
    untouchedFrom base excl (processItem st item sc).final.queue := by
  have hev := eventsStates_pres (fun s => untouchedFrom base excl s.queue)
    (fun st' e h' => untouchedFrom_applyEvent h')
  by_cases hf : findItem (applyEvents st sc.preEvents).queue item.id
  · rw [processItem_found hf]
    have hpre := hev sc.preEvents st h
    have h2 : untouchedFrom base excl (midState st item sc).queue :=
      untouchedFrom_setItemStatus (fun j => rfl) hx hpre.2
    have hmid := hev sc.midEvents (midState st item sc) h2
    have hout : untouchedFrom base excl (itemOutcome st item sc).1.queue := by
      rcases handleOutcome_split (applyEvents (midState st item sc) sc.midEvents)
          item.id sc.outcome with ⟨ha, heq1, heq2⟩ | ⟨ha, f, hfid, hg1, hg2, heq1, heq2⟩
      · have hh1 : (itemOutcome st item sc).1 =
            { applyEvents (midState st item sc) sc.midEvents with
                hasKey := false, isProcessing := false } := heq1
        rw [hh1]
        exact hmid.2
      · have hh1 : (itemOutcome st item sc).1 =
            { applyEvents (midState st item sc) sc.midEvents with
                queue := setItemStatus
                  (applyEvents (midState st item sc) sc.midEvents).queue item.id f } := heq1
        rw [hh1]
        exact untouchedFrom_setItemStatus hfid hx hmid.2
    refine ⟨?_, hout⟩
    intro s hs
    rcases List.mem_append.1 hs with hsp | hsm
    · exact hpre.1 s hsp
    · rcases List.mem_cons.1 hsm with rfl | hsm'
      · exact h2
      · rcases List.mem_append.1 hsm' with hmm | hfin
        · exact hmid.1 s hmm
        · rcases List.mem_singleton.1 hfin with rfl
          exact hout
  · rw [processItem_not_found (Bool.of_not_eq_true hf)]
    have hpre := hev sc.preEvents st h
    exact ⟨hpre.1, hpre.2⟩

theorem runLoop_untouched (scripts : Nat → ItemScript) (base : List Item)
    (excl : List Nat) :
    ∀ (ws : List Item) (k : Nat) (st : AppState),
      (∀ it ∈ ws, it.id ∈ excl) → untouchedFrom base excl st.queue →
      ∀ s ∈ (runLoop scripts ws k st).states, untouchedFrom base excl s.queue := by
  intro ws
  induction ws with
  | nil =>
    intro k st _ h s hs
    rcases List.mem_singleton.1 hs with rfl
    exact h
  | cons item rest ih =>
    intro k st hids h
    have pu := @processItem_untouched st item (scripts k) base excl
      (hids item (List.mem_cons_self _ _)) h
    rw [runLoop_cons]
    by_cases hab : (processItem st item (scripts k)).aborted
    · rw [if_pos hab]
      exact pu.1
    · rw [if_neg hab]
      intro s hs
      rcases List.mem_append.1 hs with hs' | hs'
      · exact pu.1 s hs'
      · exact ih (k + 1) (processItem st item (scripts k)).final
          (fun it hit => hids it (List.mem_cons_of_mem _ hit)) pu.2 s hs'

/-! ## General lemmas: the aspect-ratio reduce -/

theorem foldl_pick_mem (r : JSNum) :
    ∀ (l : List (String × ℚ)) (a : String × ℚ),
      l.foldl (pick r) a = a ∨ l.foldl (pick r) a ∈ l := by
  intro l
  induction l with
  | nil => exact fun a => Or.inl rfl
  | cons x xs ih =>
    intro a
    rw [List.foldl_cons]
    rcases ih (pick r a x) with h | h
    · rw [h]
      unfold pick
      split
      · exact Or.inr (List.mem_cons_self _ _)
      · exact Or.inl rfl
    · exact Or.inr (List.mem_cons_of_mem _ h)

theorem foldl_pick_id (r : JSNum) (hr : ∀ c p, ltAbsDiff r c p = false) :
    ∀ (l : List (String × ℚ)) (a : String × ℚ), l.foldl (pick r) a = a := by
  intro l
  induction l with
  | nil => exact fun a => rfl
  | cons x xs ih =>
    intro a
    rw [List.foldl_cons]
    have hp : pick r a x = a := by
      unfold pick
      rw [hr]
      rfl
    rw [hp]
    exact ih a

theorem ltAbsDiff_jsDiv_zero (w c p : ℚ) : ltAbsDiff (jsDiv w 0) c p = false := by
  unfold jsDiv
  rw [if_pos rfl]
  by_cases h : w = 0
  · rw [if_pos h]
    rfl
  · rw [if_neg h]
    by_cases h2 : 0 < w
    · rw [if_pos h2]
      rfl
    · rw [if_neg h2]
      rfl

theorem pick_fin (q : ℚ) (a x : String × ℚ) :
    pick (JSNum.fin q) a x = if |x.2 - q| < |a.2 - q| then x else a := by
  unfold pick ltAbsDiff
  by_cases h : |x.2 - q| < |a.2 - q|
  · rw [if_pos h, if_pos]
    rw [decide_eq_true_eq]
    exact h
  · rw [if_neg h, if_neg]
    rw [decide_eq_true_eq]
    exact h

theorem foldl_pick_first_min (q : ℚ) :
    ∀ (l : List (String × ℚ)) (a : String × ℚ),
      ∃ k, k < (a :: l).length ∧
        l.foldl (pick (JSNum.fin q)) a = (a :: l).getD k ("", 0) ∧
        (∀ j, j < (a :: l).length →
          |((a :: l).getD k ("", 0)).2 - q| ≤ |((a :: l).getD j ("", 0)).2 - q|) ∧
        (∀ j, j < k →
          |((a :: l).getD k ("", 0)).2 - q| < |((a :: l).getD j ("", 0)).2 - q|) := by
  intro l
  induction l with
  | nil =>
    intro a
    refine ⟨0, Nat.zero_lt_one, rfl, ?_, ?_⟩
    · intro j hj
      rcases j with _ | j'
      · exact le_refl _
      · simp only [List.length_cons, List.length_nil] at hj
        omega
    · intro j hj
      exact absurd hj (Nat.not_lt_zero j)
  | cons x xs ih =>
    intro a
    obtain ⟨k', hk', heq, hmin, hstrict⟩ := ih (pick (JSNum.fin q) a x)
    rw [pick_fin] at heq hmin hstrict
    rw [List.foldl_cons, pick_fin]
    by_cases c : |x.2 - q| < |a.2 - q|
    · rw [if_pos c] at heq hmin hstrict ⊢
      refine ⟨k' + 1, by simpa using hk', by simpa using heq, ?_, ?_⟩
      · intro j hj
        rcases j with _ | j'
        · simp only [List.getD_cons_succ, List.getD_cons_zero]
          refine le_trans ?_ (le_of_lt c)
          have := hmin 0 (Nat.succ_pos _)
          simpa using this
        · simp only [List.getD_cons_succ]
          have := hmin j' (by simpa using hj)
          simpa using this
      · intro j hj
        rcases j with _ | j'
        · simp only [List.getD_cons_succ, List.getD_cons_zero]
          refine lt_of_le_of_lt ?_ c
          have := hmin 0 (Nat.succ_pos _)
          simpa using this
        · simp only [List.getD_cons_succ]
          have := hstrict j' (by omega)
          simpa using this
    · rw [if_neg c] at heq hmin hstrict ⊢
      rcases k' with _ | k''
      · refine ⟨0, Nat.succ_pos _, by simpa using heq, ?_, ?_⟩
        · intro j hj
          rcases j with _ | j'
          · exact le_refl _
          · rcases j' with _ | j''
            · simp only [List.getD_cons_succ, List.getD_cons_zero]
              exact not_lt.1 c
            · simp only [List.getD_cons_succ, List.getD_cons_zero]
              have := hmin (j'' + 1) (by simpa using hj)
              simpa using this
        · intro j hj
          exact absurd hj (Nat.not_lt_zero j)
      · refine ⟨k'' + 2, by simpa using hk', by simpa using heq, ?_, ?_⟩
        · intro j hj
          rcases j with _ | j'
          · simp only [List.getD_cons_succ, List.getD_cons_zero]
            have := hmin 0 (Nat.succ_pos _)
            simpa using this
          · rcases j' with _ | j''
            · simp only [List.getD_cons_succ, List.getD_cons_zero]
              refine le_trans ?_ (not_lt.1 c)
              have := hmin 0 (Nat.succ_pos _)
              simpa using this
            · simp only [List.getD_cons_succ]
              have := hmin (j'' + 1) (by simpa using hj)
              simpa using this
        · intro j hj
          rcases j with _ | j'
          · simp only [List.getD_cons_succ, List.getD_cons_zero]
            have := hstrict 0 (Nat.succ_pos _)
            simpa using this
          · rcases j' with _ | j''
            · simp only [List.getD_cons_succ, List.getD_cons_zero]
              refine lt_of_lt_of_le ?_ (not_lt.1 c)
              have := hstrict 0 (Nat.succ_pos _)
              simpa using this
            · simp only [List.getD_cons_succ]
              have := hstrict (j'' + 1) (by omega)
              simpa using this

/-! ## General lemmas: the authentication abort path -/

theorem processItem_no_events {st : AppState} {item : Item} {sc : ItemScript}
    (hpre : sc.preEvents = []) (hmid : sc.midEvents = [])
    (hfind : findItem st.queue item.id = true) :
    processItem st item sc =
      ⟨[{ st with queue := setItemStatus st.queue item.id toProcessing },
        (handleOutcome { st with queue := setItemStatus st.queue item.id toProcessing }
          item.id sc.outcome).1],
       (handleOutcome { st with queue := setItemStatus st.queue item.id toProcessing }
          item.id sc.outcome).1,
       (handleOutcome { st with queue := setItemStatus st.queue item.id toProcessing }
          item.id sc.outcome).2⟩ := by
  have h1 : applyEvents st sc.preEvents = st := by rw [hpre]; rfl
  rw [processItem_found (by rw [h1]; exact hfind)]
  unfold itemOutcome
  unfold midState
  rw [hpre, hmid]
  rfl

theorem findItem_setItemStatus {q : List Item} {x y : Nat} {f : Item → Item}
    (hf : ∀ i, (f i).id = i.id) :
    findItem (setItemStatus q x f) y = findItem q y := by
  by_cases h : findItem q y
  · rw [h]
    rw [findItem_iff] at h ⊢
    rw [setItemStatus_map_id hf]
    exact h
  · have h' := Bool.of_not_eq_true h
    rw [h']
    by_contra hc
    have hc' : findItem (setItemStatus q x f) y = true := by
      revert hc
      cases findItem (setItemStatus q x f) y <;> simp
    rw [findItem_iff, setItemStatus_map_id hf] at hc'
    rw [← findItem_iff] at hc'
    rw [hc'] at h'
    cases h'

theorem runLoop_auth (scripts : Nat → ItemScript)
    (hE : ∀ j, (scripts j).preEvents = [] ∧ (scripts j).midEvents = []) :
    ∀ (ws : List Item) (k k0 : Nat) (st : AppState) (hk : k < ws.length),
      (ws.map Item.id).Nodup →
      (∀ it ∈ ws, ∀ i ∈ st.queue, i.id = it.id → i.status = it.status) →
      (∀ it ∈ ws, findItem st.queue it.id = true) →
      (∀ j, j < k → outcomeAborts (scripts (k0 + j)).outcome = false) →
      outcomeAborts (scripts (k0 + k)).outcome = true →
      (runLoop scripts ws k0 st).final.hasKey = false ∧
      (runLoop scripts ws k0 st).final.isProcessing = false ∧
      (∀ i ∈ (runLoop scripts ws k0 st).final.queue,
        i.id = (ws.get ⟨k, hk⟩).id → i.status = Status.processing) ∧
      (∀ m, ∀ hm : m < ws.length, k < m →
        ∀ i ∈ (runLoop scripts ws k0 st).final.queue,
          i.id = (ws.get ⟨m, hm⟩).id → i.status = (ws.get ⟨m, hm⟩).status) := by
  intro ws
  induction ws with
  | nil =>
    intro k k0 st hk
    exact absurd hk (Nat.not_lt_zero k)
  | cons item rest ih =>
    intro k k0 st hk hnodup hstat hfind hprev hcur
    have hpi := @processItem_no_events st item (scripts k0) (hE k0).1 (hE k0).2
      (hfind item (List.mem_cons_self _ _))
    rw [List.map_cons, List.nodup_cons] at hnodup
    cases k with
    | zero =>
      rw [Nat.add_zero] at hcur
      rcases handleOutcome_split
          { st with queue := setItemStatus st.queue item.id toProcessing }
          item.id (scripts k0).outcome with ⟨ha, heq1, heq2⟩ | ⟨ha, f, hfid, h1, h2, h3, heq2⟩
      · have habort : (processItem st item (scripts k0)).aborted = true := by
          rw [hpi]
          exact heq2
        have hfinal : (runLoop scripts (item :: rest) k0 st).final =
            { st with
                queue := setItemStatus st.queue item.id toProcessing,
                hasKey := false,
                isProcessing := false } := by
          rw [runLoop_cons_abort habort, hpi]
          exact heq1
        rw [hfinal]
        refine ⟨rfl, rfl, ?_, ?_⟩
        · intro i hi hid
          rcases status_setItemStatus_self (q := st.queue) (x := item.id)
            (f := toProcessing) hi hid with ⟨i0, hm0, hm1, hEq⟩
          rw [hEq]
          rfl
        · intro m hm hkm i hi hid
          have hm' : m - 1 < rest.length := by
            simp only [List.length_cons] at hm
            omega
          have hget : (item :: rest).get ⟨m, hm⟩ = rest.get ⟨m - 1, hm'⟩ := by
            rcases m with _ | mm
            · omega
            · simp
          rw [hget] at hid ⊢
          have hmem : rest.get ⟨m - 1, hm'⟩ ∈ rest := List.get_mem rest (m - 1) hm'
          have hne : i.id ≠ item.id := by
            rw [hid]
            intro hc
            exact hnodup.1 (hc ▸ List.mem_map.2 ⟨_, hmem, rfl⟩)
          have hin : i ∈ st.queue :=
            mem_setItemStatus_of_ne (f := toProcessing) (fun j => rfl) hi hne
          exact hstat _ (List.mem_cons_of_mem _ hmem) i hin hid
      · rw [ha] at hcur
        cases hcur
    | succ k' =>
      have hab0 : outcomeAborts (scripts k0).outcome = false := by
        have h00 := hprev 0 (Nat.succ_pos k')
        rwa [Nat.add_zero] at h00
      rcases handleOutcome_split
          { st with queue := setItemStatus st.queue item.id toProcessing }
          item.id (scripts k0).outcome with ⟨ha, heq1, heq2⟩ | ⟨ha, f, hfid, hg1, hg2, heq1, heq2⟩
      · rw [ha] at hab0
        cases hab0
      · have habort : (processItem st item (scripts k0)).aborted = false := by
          rw [hpi]
          exact heq2
        have hfinal : (processItem st item (scripts k0)).final =
            { st with queue :=
                setItemStatus (setItemStatus st.queue item.id toProcessing) item.id f } := by
          rw [hpi]
          exact heq1
        rw [runLoop_cons_cont habort, hfinal]
        have hk' : k' < rest.length := by
          simp only [List.length_cons] at hk
          omega
        have hrec := ih k' (k0 + 1)
          { st with queue :=
              setItemStatus (setItemStatus st.queue item.id toProcessing) item.id f }
          hk' hnodup.2 ?hstat ?hfind ?hprev ?hcur
        case hstat =>
          intro it hit i hi hid
          have hneq : it.id ≠ item.id := by
            intro hc
            exact hnodup.1 (hc ▸ List.mem_map.2 ⟨it, hit, rfl⟩)
          have hne : i.id ≠ item.id := by
            rw [hid]
            exact hneq
          have hin1 := mem_setItemStatus_of_ne (f := f) hfid hi hne
          have hin2 := mem_setItemStatus_of_ne (f := toProcessing) (fun j => rfl) hin1 hne
          exact hstat it (List.mem_cons_of_mem _ hit) i hin2 hid
        case hfind =>
          intro it hit
          show findItem (setItemStatus (setItemStatus st.queue item.id toProcessing)
            item.id f) it.id = true
          rw [findItem_setItemStatus (f := f) hfid,
            findItem_setItemStatus (f := toProcessing) (fun j => rfl)]
          exact hfind it (List.mem_cons_of_mem _ hit)
        case hprev =>
          intro j hj
          have hjj := hprev (j + 1) (by omega)
          rwa [show k0 + (j + 1) = k0 + 1 + j by omega] at hjj
        case hcur =>
          rwa [show k0 + 1 + k' = k0 + (k' + 1) by omega]
        refine ⟨hrec.1, hrec.2.1, ?_, ?_⟩
        · intro i hi hid
          have hget : (item :: rest).get ⟨k' + 1, hk⟩ = rest.get ⟨k', hk'⟩ := by simp
          rw [hget] at hid
          exact hrec.2.2.1 i hi hid
        · intro m hm hkm i hi hid
          have hm' : m - 1 < rest.length := by
            simp only [List.length_cons] at hm
            omega
          have hget : (item :: rest).get ⟨m, hm⟩ = rest.get ⟨m - 1, hm'⟩ := by
            rcases m with _ | mm
            · omega
            · simp
          rw [hget] at hid ⊢
          exact hrec.2.2.2 (m - 1) hm' (by omega) i hi hid

/-! ## General lemmas: the processQueue entry point -/

theorem processQueue_eq_active {scripts : Nat → ItemScript} {st : AppState}
    (hp : st.isProcessing = true) : processQueue scripts st = ⟨[st], st⟩ := by
  unfold processQueue
  rw [if_pos hp]

theorem processQueue_eq_run {scripts : Nat → ItemScript} {st : AppState}
    (hp : st.isProcessing = false) :
    processQueue scripts st =
      ⟨{ st with isProcessing := true } ::
         (runLoop scripts (pending st.queue) 0 { st with isProcessing := true }).states,
       (runLoop scripts (pending st.queue) 0 { st with isProcessing := true }).final⟩ := by
  unfold processQueue
  rw [if_neg]
  rw [hp]
  exact fun hc => by cases hc

theorem mem_pending {q : List Item} {it : Item} (h : it ∈ pending q) :
    it ∈ q ∧ (it.status = Status.idle ∨ it.status = Status.error) := by
  have hm := List.mem_filter.1 h
  refine ⟨hm.1, ?_⟩
  have hb := hm.2
  rw [Bool.or_eq_true, beq_iff_eq, beq_iff_eq] at hb
  exact hb

theorem nodupIds_pending {q : List Item} (h : NodupIds q) :
    ((pending q).map Item.id).Nodup := by
  have hsub : List.Sublist (pending q) q := List.filter_sublist q
  exact List.Nodup.sublist (hsub.map Item.id) h

/-! ## Claims -/

/-- C9: for every work-list item that has been removed from the queue
between the run-start snapshot and its turn (the presence re-check fails
on the latest queue), the processor skips it without changing any state —
the final state of the iteration is exactly the state produced by the
interleaved user events, the iteration does not abort (the run proceeds to
the next item), and the iteration contributes no state changes of its own
to the trace. -/
theorem c9_removed_item_skipped (st : AppState) (item : Item) (sc : ItemScript)
    (h : findItem (applyEvents st sc.preEvents).queue item.id = false) :
    (processItem st item sc).final = applyEvents st sc.preEvents ∧
    (processItem st item sc).aborted = false ∧
    (processItem st item sc).states = eventsStates st sc.preEvents := by
  rw [processItem_not_found h]
  exact ⟨rfl, rfl, rfl⟩

/-- C9 witness: a concrete queue holding only item 1, with the snapshot
item 2 already gone: the iteration is a silent no-op that continues. -/
theorem c9_removed_item_skipped_witness :
    (processItem ⟨[itemIdle 1], true, true⟩ (itemIdle 2) emptyScript).final
        = applyEvents ⟨[itemIdle 1], true, true⟩ emptyScript.preEvents ∧
    (processItem ⟨[itemIdle 1], true, true⟩ (itemIdle 2) emptyScript).aborted = false ∧
    (processItem ⟨[itemIdle 1], true, true⟩ (itemIdle 2) emptyScript).states
        = eventsStates ⟨[itemIdle 1], true, true⟩ emptyScript.preEvents :=
  c9_removed_item_skipped ⟨[itemIdle 1], true, true⟩ (itemIdle 2) emptyScript (by decide)

/-- C10: for every global instruction string and every item, the
instruction text placed in the outbound request equals the global
instruction, a single space, then the item's custom instruction (or the
empty string when absent). -/
theorem c10_prompt_composition (g : String) (item : Item) (b t a : String) :
    (buildRequest g item b t a).text = g ++ " " ++ item.customPrompt.getD "" := by
  show g ++ " " ++ jsOrElseStr item.customPrompt "" = g ++ " " ++ item.customPrompt.getD ""
  congr 1
  cases item.customPrompt with
  | none => rfl
  | some p =>
    show (if p = "" then "" else p) = (some p).getD ""
    by_cases hp : p = ""
    · rw [if_pos hp, hp]
      rfl
    · rw [if_neg hp]
      rfl

/-- C8 counterexample: the failure message `"Safety 429"` indicates a
content-safety rejection (it contains `"Safety"`) and is not an auth
failure, yet the classifier yields the rate-limit label, not the safety
label — the `429` check runs after the safety check and overwrites it. -/
theorem c8_counterexample :
    includesStr "Safety 429" "Safety" = true ∧
    includesStr "Safety 429" authNotFoundMsg = false ∧
    classifyMsg "Safety 429" = "請求過於頻繁，請稍候" ∧
    classifyMsg "Safety 429" ≠ "觸發安全限制" := by
  decide

/-- C8 (amended): for a non-auth failure the classifier yields the
rate-limit label whenever the message indicates HTTP 429 (even if it also
indicates a safety rejection — the 429 check runs last and takes
precedence), the safety label when the message indicates a content-safety
rejection and not 429, and the generic "generation failed" label
otherwise; the classified label is recorded as the item's error message
together with the `Error` status. -/
theorem c8_amended_classifier (msg : String) (st : AppState) (x : Nat)
    (hna : includesStr msg authNotFoundMsg = false) :
    (includesStr msg "429" = true → classifyMsg msg = "請求過於頻繁，請稍候") ∧
    (includesStr msg "Safety" = true → includesStr msg "429" = false →
      classifyMsg msg = "觸發安全限制") ∧
    (includesStr msg "Safety" = false → includesStr msg "429" = false →
      classifyMsg msg = "生成失敗") ∧
    (∀ i ∈ (handleFailure st x msg).1.queue, i.id = x →
      i.status = Status.error ∧ i.errorMsg = some (classifyMsg msg)) := by
  refine ⟨?_, ?_, ?_, ?_⟩
  · intro h4
    simp [classifyMsg, h4]
  · intro hs h4
    simp [classifyMsg, hs, h4]
  · intro hs h4
    simp [classifyMsg, hs, h4]
  · intro i hi hx
    rcases handleFailure_split st x msg with ⟨h1, _⟩ | ⟨h1, h2⟩
    · rw [h1] at hna
      cases hna
    · have hq : (handleFailure st x msg).1.queue
          = setItemStatus st.queue x (toError (classifyMsg msg)) := by
        rw [h2]
      rw [hq] at hi
      rcases status_setItemStatus_self hi hx with ⟨i0, _, _, hEq⟩
      rw [hEq]
      exact ⟨rfl, rfl⟩

/-- C8 witness: the amended classification at the concrete non-auth
message `"HTTP 429 too many requests"` on a one-item queue. -/
theorem c8_amended_classifier_witness :
    (includesStr "HTTP 429 too many requests" "429" = true →
      classifyMsg "HTTP 429 too many requests" = "請求過於頻繁，請稍候") ∧
    (includesStr "HTTP 429 too many requests" "Safety" = true →
      includesStr "HTTP 429 too many requests" "429" = false →
      classifyMsg "HTTP 429 too many requests" = "觸發安全限制") ∧
    (includesStr "HTTP 429 too many requests" "Safety" = false →
      includesStr "HTTP 429 too many requests" "429" = false →
      classifyMsg "HTTP 429 too many requests" = "生成失敗") ∧
    (∀ i ∈ (handleFailure ⟨[⟨3, Status.processing, none, none, none⟩], true, true⟩ 3
        "HTTP 429 too many requests").1.queue, i.id = 3 →
      i.status = Status.error ∧
      i.errorMsg = some (classifyMsg "HTTP 429 too many requests")) :=
  c8_amended_classifier "HTTP 429 too many requests"
    ⟨[⟨3, Status.processing, none, none, none⟩], true, true⟩ 3 (by decide)

/-- C7 counterexample: at height 0 the aspect-ratio matcher does not fail
and does not signal anything — every comparison against the non-finite
ratio is false, so the reduce keeps the first entry and the matcher
returns the ordinary label `"1:1"` (the claim asserts a failure signalling
`InvalidImageDimensions` exactly when the height is zero). -/
theorem c7_counterexample :
    bestAspect (jsDiv 5 0) = "1:1" ∧
    "1:1" ∈ ["1:1", "3:4", "4:3", "9:16", "16:9"] := by
  decide

/-- C7 (amended): the matcher never fails: for every rational width and
height — including zero height, where the source would divide by zero —
it returns one of the five supported labels, and when the height is zero
it returns the first declared label `"1:1"`. -/
theorem c7_amended_total (w h : ℚ) :
    bestAspect (jsDiv w h) ∈ ["1:1", "3:4", "4:3", "9:16", "16:9"] ∧
    (h = 0 → bestAspect (jsDiv w h) = "1:1") := by
  constructor
  · simp only [bestAspect, supported, jsReduce]
    rcases foldl_pick_mem (jsDiv w h)
        [("3:4", 3 / 4), ("4:3", 13333 / 10000), ("9:16", 9 / 16),
         ("16:9", 17778 / 10000)] ("1:1", 1) with h1 | h1
    · rw [h1]
      decide
    · simp only [List.mem_cons, List.not_mem_nil, or_false] at h1
      rcases h1 with h1 | h1 | h1 | h1 <;> rw [h1] <;> decide
  · intro h0
    subst h0
    simp only [bestAspect, supported, jsReduce]
    rw [foldl_pick_id (jsDiv w 0) (fun c p => ltAbsDiff_jsDiv_zero w c p)]

/-- C7 witness: the amended totality at the concrete dimensions (7, 0). -/
theorem c7_amended_total_witness :
    bestAspect (jsDiv 7 0) ∈ ["1:1", "3:4", "4:3", "9:16", "16:9"] ∧
    bestAspect (jsDiv 7 0) = "1:1" :=
  ⟨(c7_amended_total 7 0).1, (c7_amended_total 7 0).2 rfl⟩

/-- C3: for every positive finite width and height the aspect-ratio
matcher returns the label of the `supported` entry whose value has the
smallest absolute difference from `width / height`, with ties resolved to
the earliest-declared entry (every strictly earlier entry has a strictly
larger difference); in particular (1000, 1000) gives `"1:1"`,
(1920, 1080) gives `"16:9"`, (1080, 1920) gives `"9:16"` and (800, 600)
gives `"4:3"`. -/
theorem c3_aspect_nearest :
    (∀ w h : ℚ, 0 < w → 0 < h →
      ∃ k, k < supported.length ∧
        bestAspect (jsDiv w h) = (supported.getD k ("", 0)).1 ∧
        (∀ j, j < supported.length →
          |(supported.getD k ("", 0)).2 - w / h| ≤ |(supported.getD j ("", 0)).2 - w / h|) ∧
        (∀ j, j < k →
          |(supported.getD k ("", 0)).2 - w / h| < |(supported.getD j ("", 0)).2 - w / h|)) ∧
    bestAspect (jsDiv 1000 1000) = "1:1" ∧
    bestAspect (jsDiv 1920 1080) = "16:9" ∧
    bestAspect (jsDiv 1080 1920) = "9:16" ∧
    bestAspect (jsDiv 800 600) = "4:3" := by
  have ex1 : bestAspect (jsDiv 1000 1000) = "1:1" := by
    have hdiv : jsDiv 1000 1000 = JSNum.fin (1000 / 1000) := by
      unfold jsDiv
      rw [if_neg (by norm_num)]
    have habs0 : ∀ a : ℚ, ¬(|a| < 0) := fun a => not_lt.2 (abs_nonneg a)
    simp only [bestAspect, supported, jsReduce, hdiv, List.foldl_cons, List.foldl_nil,
      pick_fin]
    norm_num [← sq_lt_sq, habs0]
  have ex2 : bestAspect (jsDiv 1920 1080) = "16:9" := by
    have hdiv : jsDiv 1920 1080 = JSNum.fin (1920 / 1080) := by
      unfold jsDiv
      rw [if_neg (by norm_num)]
    have habs0 : ∀ a : ℚ, ¬(|a| < 0) := fun a => not_lt.2 (abs_nonneg a)
    simp only [bestAspect, supported, jsReduce, hdiv, List.foldl_cons, List.foldl_nil,
      pick_fin]
    norm_num [← sq_lt_sq, habs0]
  have ex3 : bestAspect (jsDiv 1080 1920) = "9:16" := by
    have hdiv : jsDiv 1080 1920 = JSNum.fin (1080 / 1920) := by
      unfold jsDiv
      rw [if_neg (by norm_num)]
    have habs0 : ∀ a : ℚ, ¬(|a| < 0) := fun a => not_lt.2 (abs_nonneg a)
    simp only [bestAspect, supported, jsReduce, hdiv, List.foldl_cons, List.foldl_nil,
      pick_fin]
    norm_num [← sq_lt_sq, habs0]
  have ex4 : bestAspect (jsDiv 800 600) = "4:3" := by
    have hdiv : jsDiv 800 600 = JSNum.fin (800 / 600) := by
      unfold jsDiv
      rw [if_neg (by norm_num)]
    have habs0 : ∀ a : ℚ, ¬(|a| < 0) := fun a => not_lt.2 (abs_nonneg a)
    simp only [bestAspect, supported, jsReduce, hdiv, List.foldl_cons, List.foldl_nil,
      pick_fin]
    norm_num [← sq_lt_sq, habs0]
  refine ⟨?_, ex1, ex2, ex3, ex4⟩
  intro w h hw hh
  have hdiv : jsDiv w h = JSNum.fin (w / h) := by
    unfold jsDiv
    rw [if_neg hh.ne']
  obtain ⟨k, hk, heq, hmin, hstrict⟩ := foldl_pick_first_min (w / h)
    [("3:4", 3 / 4), ("4:3", 13333 / 10000), ("9:16", 9 / 16), ("16:9", 17778 / 10000)]
    ("1:1", 1)
  refine ⟨k, ?_, ?_, ?_, ?_⟩
  · simp only [supported]
    exact hk
  · simp only [bestAspect, supported, jsReduce]
    rw [hdiv, heq]
  · intro j hj
    simp only [supported] at hj ⊢
    exact hmin j hj
  · intro j hj
    simp only [supported]
    exact hstrict j hj

/-- C3 witness: the nearest-label property instantiated at the concrete
dimensions (1000, 1000). -/
theorem c3_aspect_nearest_witness :
    ∃ k, k < supported.length ∧
      bestAspect (jsDiv 1000 1000) = (supported.getD k ("", 0)).1 ∧
      (∀ j, j < supported.length →
        |(supported.getD k ("", 0)).2 - 1000 / 1000|
          ≤ |(supported.getD j ("", 0)).2 - 1000 / 1000|) ∧
      (∀ j, j < k →
        |(supported.getD k ("", 0)).2 - 1000 / 1000|
          < |(supported.getD j ("", 0)).2 - 1000 / 1000|) :=
  c3_aspect_nearest.1 1000 1000 (by norm_num) (by norm_num)

/-- C2: the claim says a cancel request stops the loop before the next
item; the code, however, never re-reads the `isProcessing` flag inside the
loop (contradicting the comment in `cancelProcessing`, line 217).  With
two idle items and a cancel arriving while item 1's request is in flight,
the trace does reach a state where the flag is cleared while item 1 is
still the only started item — and item 2 is nevertheless processed
afterwards, ending in `Success` instead of remaining `Idle`. -/
theorem c2_cancel_not_respected :
    (∃ s ∈ (processQueue c2Scripts c2State).states,
       s.isProcessing = false ∧
       s.queue.map Item.status = [Status.processing, Status.idle]) ∧
    (processQueue c2Scripts c2State).final.queue.map Item.status
        = [Status.success, Status.success] := by
  decide

/-- C1 counterexample: with three idle items where item 2's request fails
with the authentication-rejection message, the run aborts with the
credential flag cleared and item 3 untouched — but item 2 ends in
`Processing`, not `Error`: the early `return` of the auth path skips the
error transition. -/
theorem c1_counterexample :
    (processQueue c1Scripts c1State).final.queue.map Item.status
        = [Status.success, Status.processing, Status.idle] ∧
    (processQueue c1Scripts c1State).final.hasKey = false ∧
    Status.processing ≠ Status.error := by
  decide

/-- C1 (amended): if the failure of the work-list item at position `k` is
classified as the authentication rejection (and the earlier items' outcomes
are not), the processor clears the process-wide usable-credential flag,
ends the run (the single-flight flag is cleared), leaves every
not-yet-started work-list item in its prior status — but leaves the
current item stuck in `Processing` status, not `Error`. -/
theorem c1_amended_auth_abort (scripts : Nat → ItemScript) (st0 : AppState) (k : Nat)
    (hE : ∀ j, (scripts j).preEvents = [] ∧ (scripts j).midEvents = [])
    (hP : st0.isProcessing = false)
    (hN : NodupIds st0.queue)
    (hk : k < (pending st0.queue).length)
    (hprev : ∀ j, j < k → outcomeAborts (scripts j).outcome = false)
    (hcur : outcomeAborts (scripts k).outcome = true) :
    (processQueue scripts st0).final.hasKey = false ∧
    (processQueue scripts st0).final.isProcessing = false ∧
    (∀ i ∈ (processQueue scripts st0).final.queue,
      i.id = ((pending st0.queue).get ⟨k, hk⟩).id → i.status = Status.processing) ∧
    (∀ m, ∀ hm : m < (pending st0.queue).length, k < m →
      ∀ i ∈ (processQueue scripts st0).final.queue,
        i.id = ((pending st0.queue).get ⟨m, hm⟩).id →
        i.status = ((pending st0.queue).get ⟨m, hm⟩).status) := by
  rw [processQueue_eq_run hP]
  have hmain := runLoop_auth scripts hE (pending st0.queue) k 0
    { st0 with isProcessing := true } hk (nodupIds_pending hN) ?stat ?find
    (fun j hj => by simpa using hprev j hj) (by simpa using hcur)
  case stat =>
    intro it hit i hi hid
    have hm := mem_pending hit
    have heq : i = it := nodupIds_unique hN hi hm.1 hid
    rw [heq]
  case find =>
    intro it hit
    rw [findItem_iff]
    exact List.mem_map.2 ⟨it, (mem_pending hit).1, rfl⟩
  exact ⟨hmain.1, hmain.2.1, hmain.2.2.1, hmain.2.2.2⟩

/-- C1 witness: the amended abort behaviour on a concrete three-item
queue whose first outcome is the authentication rejection. -/
theorem c1_amended_auth_abort_witness :
    (processQueue c4ScriptsAuth c1State).final.hasKey = false ∧
    (processQueue c4ScriptsAuth c1State).final.isProcessing = false ∧
    (∀ i ∈ (processQueue c4ScriptsAuth c1State).final.queue,
      i.id = ((pending c1State.queue).get ⟨0, by decide⟩).id →
      i.status = Status.processing) ∧
    (∀ m, ∀ hm : m < (pending c1State.queue).length, 0 < m →
      ∀ i ∈ (processQueue c4ScriptsAuth c1State).final.queue,
        i.id = ((pending c1State.queue).get ⟨m, hm⟩).id →
        i.status = ((pending c1State.queue).get ⟨m, hm⟩).status) :=
  c1_amended_auth_abort c4ScriptsAuth c1State 0 (fun _ => ⟨rfl, rfl⟩) rfl
    (by decide) (by decide) (fun j hj => absurd hj (Nat.not_lt_zero j)) (by decide)

/-- C4 counterexample: across runs the Processing count can reach 2.  A
first run aborted by the authentication rejection leaves item 1 stuck in
`Processing`; a second run (after re-authorization) then moves item 2 into
`Processing` while item 1 still is, so the trace of the second run
contains an instant with two `Processing` items. -/
theorem c4_counterexample :
    ∃ s ∈ (processQueue c4ScriptsOk (processQueue c4ScriptsAuth c4State).final).states,
      processingCount s.queue = 2 := by
  decide

/-- C4 (amended): within a single run that starts with no item in
`Processing` (and whose trace keeps queue ids duplicate-free), at most one
item is in `Processing` at any instant: the processor never moves the next
work-list item into `Processing` before the current item's outcome has
been recorded. -/
theorem c4_amended_single_flight (scripts : Nat → ItemScript) (st0 : AppState)
    (h0 : processingCount st0.queue = 0)
    (hN : ∀ s ∈ (processQueue scripts st0).states, NodupIds s.queue) :
    ∀ s ∈ (processQueue scripts st0).states, processingCount s.queue ≤ 1 := by
  by_cases hp : st0.isProcessing
  · intro s hs
    rw [processQueue_eq_active hp] at hs
    rcases List.mem_singleton.1 hs with rfl
    omega
  · have hp' : st0.isProcessing = false := Bool.of_not_eq_true hp
    intro s hs
    rw [processQueue_eq_run hp'] at hs
    rcases List.mem_cons.1 hs with rfl | hs'
    · show processingCount st0.queue ≤ 1
      omega
    · refine runLoop_count scripts (pending st0.queue) 0
        { st0 with isProcessing := true } h0 ?_ s hs'
      intro s' hs''
      apply hN
      rw [processQueue_eq_run hp']
      exact hs''

/-- C4 witness: the single-flight bound at the first recorded state of a
concrete one-item run. -/
theorem c4_amended_single_flight_witness :
    processingCount (AppState.mk [itemIdle 1] true true).queue ≤ 1 :=
  c4_amended_single_flight c4ScriptsOk ⟨[itemIdle 1], false, true⟩ (by decide) (by decide)
    ⟨[itemIdle 1], true, true⟩ (by decide)

/-- C5: every state reached during a run keeps every queue item
well-formed — the result image is present exactly in `Success` state and
the error message exactly in `Error` state; moreover the processing
transition applied on (re-)submission always yields `Processing` status
with the error message cleared, before any new outcome is recorded. -/
theorem c5_wf_invariant (scripts : Nat → ItemScript) (st0 : AppState)
    (hwf : ∀ i ∈ st0.queue, wfItem i)
    (hN : NodupIds st0.queue) :
    (∀ s ∈ (processQueue scripts st0).states, ∀ i ∈ s.queue, wfItem i) ∧
    (∀ i : Item, (toProcessing i).status = Status.processing ∧
      (toProcessing i).errorMsg = none) := by
  refine ⟨?_, fun i => ⟨rfl, rfl⟩⟩
  by_cases hp : st0.isProcessing
  · intro s hs
    rw [processQueue_eq_active hp] at hs
    rcases List.mem_singleton.1 hs with rfl
    exact hwf
  · intro s hs
    rw [processQueue_eq_run (Bool.of_not_eq_true hp)] at hs
    rcases List.mem_cons.1 hs with rfl | hs'
    · exact hwf
    · refine runLoop_wf scripts (pending st0.queue) 0 { st0 with isProcessing := true }
        hwf ?_ (nodupIds_pending hN) s hs'
      intro it hit i hi hid
      have hm := mem_pending hit
      have heq : i = it := nodupIds_unique hN hi hm.1 hid
      rw [heq]
      rcases hm.2 with h | h <;> rw [h] <;> intro hc <;> cases hc

/-- C5 witness: in a run resubmitting a concrete `Error` item, the trace
contains the instant where the item is back in `Processing` with its
error message cleared, and that item is well-formed. -/
theorem c5_wf_invariant_witness :
    wfItem ⟨1, Status.processing, none, none, none⟩ :=
  (c5_wf_invariant c4ScriptsOk c5State (by decide) (by decide)).1
    ⟨[⟨1, Status.processing, none, none, none⟩], true, true⟩ (by decide)
    ⟨1, Status.processing, none, none, none⟩ (by decide)

/-- C6: the work list is exactly the items whose status is `Idle` or
`Error`, in queue order, snapshotted once at run start; and at every
instant of the run, every queue item whose id is outside that snapshot is
either a freshly enqueued `Idle` item (not processed during this run) or
still carries the status it had when the run started. -/
theorem c6_snapshot_run (scripts : Nat → ItemScript) (st0 : AppState) :
    pending st0.queue
        = st0.queue.filter (fun i => i.status == Status.idle || i.status == Status.error) ∧
    (∀ s ∈ (processQueue scripts st0).states,
      untouchedFrom st0.queue ((pending st0.queue).map Item.id) s.queue) := by
  refine ⟨rfl, ?_⟩
  by_cases hp : st0.isProcessing
  · intro s hs
    rw [processQueue_eq_active hp] at hs
    rcases List.mem_singleton.1 hs with rfl
    intro i hi _
    exact Or.inr ⟨i, hi, rfl, rfl⟩
  · intro s hs
    rw [processQueue_eq_run (Bool.of_not_eq_true hp)] at hs
    rcases List.mem_cons.1 hs with rfl | hs'
    · intro i hi _
      exact Or.inr ⟨i, hi, rfl, rfl⟩
    · refine runLoop_untouched scripts st0.queue ((pending st0.queue).map Item.id)
        (pending st0.queue) 0 { st0 with isProcessing := true } ?_ ?_ s hs'
      · intro it hit
        exact List.mem_map.2 ⟨it, hit, rfl⟩
      · intro i hi _
        exact Or.inr ⟨i, hi, rfl, rfl⟩

/-- C6 witness: an item enqueued while the run is in flight (id 5) is in
the final queue and is still `Idle` — only a fresh run would pick it up. -/
theorem c6_snapshot_run_witness :
    itemIdle 5 ∈ (processQueue c6Scripts c6State).final.queue ∧
    ((itemIdle 5).status = Status.idle ∨
      ∃ j ∈ c6State.queue, j.id = (itemIdle 5).id ∧ j.status = (itemIdle 5).status) :=
  ⟨by decide,
   (c6_snapshot_run c6Scripts c6State).2 (processQueue c6Scripts c6State).final
     (by decide) (itemIdle 5) (by decide) (by decide)⟩

end Putiai
